import Mathlib

/-!
# Exec cycle of the sandbox container server (`daemon/container_execve.go`)

A shallow embedding of `containerServer.handleExecve`: the request validation, the
synchronization handshake `syncFunc`, the launch, the kill-listening goroutine with its
reap loop, the primary wait, and the classification of the wait status into a reply.

Every call that talks to the outside world (IPC send / receive, the launcher, `kill`,
`wait4`, channel operations) is recorded as an `Event`.  The answers of the outside world
are scripted in an `Env`.  The two flows of one exec cycle are given as their program-order
action lists, and `run` executes them under an arbitrary schedule, so a statement
quantified over all schedules is a statement about every interleaving.
-/

set_option linter.dupNamespace false

namespace Daemon

/-! ## Machine integers -/

/-- Two's-complement wrap of an integer into the `int64` range. -/
def wrap64 (x : Int) : Int := (x + 2 ^ 63) % 2 ^ 64 - 2 ^ 63

/-- Conversion `int32(x)` of a Go `int`. -/
def toInt32 (x : Int) : Int := (x + 2 ^ 31) % 2 ^ 32 - 2 ^ 31

/-- Conversion `uint32(x)` of a Go `int`. -/
def toUint32 (x : Int) : Nat := (x % 2 ^ 32).toNat

/-- Conversion `uint64(x)` / `uintptr(x)` of a Go signed integer. -/
def toUint64 (x : Int) : Nat := (x % 2 ^ 64).toNat

/-! ## Constants of Go's `syscall` package (linux/amd64) -/

def SIGKILL : Int := 9
def SIGXCPU : Int := 24
def SIGXFSZ : Int := 25
def SIGSYS : Int := 31
def WNOHANG : Int := 1
def EINTR : Nat := 4
def ECHILD : Nat := 10

/-! ## `syscall.WaitStatus` (a `uint32`), as in Go's `syscall` package on Linux -/

abbrev WaitStatus := Nat

namespace WaitStatus

def mask : Nat := 0x7F
def core : Nat := 0x80
def exited : Nat := 0x00
def stopped : Nat := 0x7F
def shift : Nat := 8

/-- Go: `func (w WaitStatus) Exited() bool { return w&mask == exited }`. -/
def Exited (w : WaitStatus) : Bool := w &&& mask == exited

/-- Go: `func (w WaitStatus) Signaled() bool { return w&mask != stopped && w&mask != exited }`. -/
def Signaled (w : WaitStatus) : Bool := w &&& mask != stopped && w &&& mask != exited

/-- Go: `ExitStatus` is `-1` unless `Exited`, else `int(w>>shift) & 0xFF`. -/
def ExitStatus (w : WaitStatus) : Int :=
  if !Exited w then -1 else (((w >>> shift) &&& 0xFF : Nat) : Int)

/-- Go: `Signal` is `-1` unless `Signaled`, else `Signal(w & mask)`. -/
def Signal (w : WaitStatus) : Int :=
  if !Signaled w then -1 else ((w &&& mask : Nat) : Int)

end WaitStatus

/-! ## `syscall.Rusage` -/

/-- The type `syscall.Timeval`: seconds and microseconds, both `int64`. -/
structure Timeval where
  Sec : Int
  Usec : Int
  deriving DecidableEq, Repr

/-- Go: `func (tv *Timeval) Nano() int64 { return int64(tv.Sec)*1e9 + int64(tv.Usec)*1000 }`. -/
def Timeval.Nano (tv : Timeval) : Int :=
  wrap64 (wrap64 (tv.Sec * 1000000000) + wrap64 (tv.Usec * 1000))

/-- The fields of `syscall.Rusage` read by the handler. -/
structure Rusage where
  Utime : Timeval
  Maxrss : Int
  deriving DecidableEq, Repr

/-! ## Errors -/

/-- A Go `error` value: an errno, an error produced by a collaborator (IPC channel,
launcher), or the result of `fmt.Errorf` kept as its format string and argument. -/
inductive GoError where
  | errno (e : Nat)
  | ext (msg : String)
  | errorf0 (format : String)
  | errorf1 (format : String) (arg : GoError)
  deriving DecidableEq, Repr

/-- The format string an error built by `fmt.Errorf` carries, if it was built so. -/
def GoError.format : GoError → Option String
  | .errorf0 f => some f
  | .errorf1 f _ => some f
  | _ => none

/-! ## Messages of the IPC protocol -/

/-- Modelled from the spec: the status taxonomy of package `types`, which is declared in
another package of the repository; only the five statuses the handler assigns are listed. -/
inductive Status where
  | StatusNormal
  | StatusTimeLimitExceeded
  | StatusOutputLimitExceeded
  | StatusDisallowedSyscall
  | StatusSignalled
  deriving DecidableEq, Repr

/-- The type `ExecReply`: `Time` is a `time.Duration` (`int64` nanoseconds), `Memory` a
`types.Size`, a byte count declared in package `types` and taken here as a `uint64`. -/
structure ExecReply where
  Status : Status
  ExitStatus : Int
  Time : Int
  Memory : Nat
  deriving DecidableEq, Repr

/-- The type `Reply` as far as the handler fills it: `Reply{}` has no `ExecReply`. -/
structure Reply where
  ExecReply : Option ExecReply
  deriving DecidableEq, Repr

/-- The type `syscall.Ucred`. -/
structure Ucred where
  Pid : Int
  Uid : Nat
  Gid : Nat
  deriving DecidableEq, Repr

/-- The type `unixsocket.Msg`: attached descriptors and an optional credential record. -/
structure Msg where
  Fds : List Int
  Cred : Option Ucred
  deriving DecidableEq, Repr

/-- A controller command as far as the handler looks at it: its tag `Cmd`. -/
structure Cmd where
  Cmd : String
  deriving DecidableEq, Repr

/-- Modelled from the spec: the constant `cmdKill`, declared in another file of the
package; it is the tag of the distinguished kill command. -/
def cmdKill : String := "kill"

/-- A resource limit of the request. -/
structure RLimit where
  Res : Int
  Cur : Nat
  Max : Nat
  deriving DecidableEq, Repr

/-- The type `ExecCmd`. -/
structure ExecCmd where
  Argv : List String
  Env : List String
  RLimits : List RLimit
  FdExec : Bool
  deriving DecidableEq, Repr

/-- The type `syscall.Credential` as far as the handler fills it. -/
structure Credential where
  Uid : Nat
  Gid : Nat
  NoSetGroups : Bool
  deriving DecidableEq, Repr

/-- The data fields of `forkexec.Runner` set by the handler (`SyncFunc` is passed to
`Runner.Start` separately). -/
structure Runner where
  Args : List String
  Env : List String
  ExecFile : Nat
  RLimits : List RLimit
  Files : List Nat
  WorkDir : String
  NoNewPrivs : Bool
  DropCaps : Bool
  Credential : Option Credential
  deriving DecidableEq, Repr

/-- The session: the `Cred` switch of `containerServer`, together with the constants
`containerUID` and `containerGID`, which are declared in another file of the package. -/
structure containerServer where
  Cred : Bool
  containerUID : Nat
  containerGID : Nat
  deriving DecidableEq, Repr

/-! ## Answers of the outside world -/

/-- Result of `c.recvCmd()`. -/
inductive RecvResult where
  | ok (cmd : Cmd)
  | err (e : GoError)
  deriving DecidableEq, Repr

/-- Result `(wpid, err)` of one non-blocking `syscall.Wait4(-1, nil, WNOHANG, nil)`. -/
structure WaitOutcome where
  pid : Int
  err : Option Nat
  deriving DecidableEq, Repr

/-- Result of the blocking `syscall.Wait4(pid, &wstatus, 0, &rusage)`. -/
inductive WaitResult where
  | ok (wstatus : WaitStatus) (rusage : Rusage)
  | err (e : Nat)
  deriving DecidableEq, Repr

/-- What happens inside the launcher: child creation fails before the callback, or a
child `pid` exists, the callback is invoked, and `later` is the error (if any) the launch
meets after a successful callback. -/
inductive LaunchScript where
  | fails (e : GoError)
  | created (pid : Int) (later : Option GoError)
  deriving DecidableEq, Repr

/-- The scripted answers of the outside world during one exec cycle.  Every blocking call
is taken to return, with the answer scripted here. -/
structure Env where
  /-- Result of `syscall.Getuid()`. -/
  uid : Int
  /-- Result of `syscall.Getgid()`. -/
  gid : Int
  /-- What happens inside `r.Start()`. -/
  launch : LaunchScript
  /-- Result of the `sendReply` of the handshake (`none` is success). -/
  sendHandshake : Option GoError
  /-- Result of the `recvCmd` of the handshake. -/
  recvHandshake : RecvResult
  /-- Result of the blocking wait on the child. -/
  wait : WaitResult
  /-- Result of the `recvCmd` of the kill-listening flow. -/
  recvKill : RecvResult
  /-- Results of the successive non-blocking waits of the reap loop. -/
  reap : List WaitOutcome
  /-- Result of sending the result reply or the error reply. -/
  sendResult : Option GoError
  /-- Result of sending the closing `Reply{}`. -/
  sendFinal : Option GoError

/-! ## Events -/

/-- The two one-shot signals of an exec cycle. -/
inductive Chan where
  | killDone
  | waitDone
  deriving DecidableEq, Repr

/-- An argument of `sendErrorReply`. -/
inductive Arg where
  | err (e : GoError)
  | wstatus (w : WaitStatus)
  deriving DecidableEq, Repr

/-- One observable action of the handler or of its goroutine. -/
inductive Event where
  | closeOnExecFds (fds : List Int)
  | closeFds (fds : List Int)
  | sendReply (r : Reply) (msg : Option Msg)
  | sendErrorReply (format : String) (arg : Option Arg)
  | recvCmd (res : RecvResult)
  | start (r : Runner)
  | kill (pid : Int) (sig : Int)
  | wait4 (pid : Int) (options : Int) (wpid : Int) (err : Option Nat)
  | close (ch : Chan)
  | recv (ch : Chan)
  | ret (err : Option GoError)
  deriving DecidableEq, Repr

/-! ## The synchronization handshake -/

/-- The closure `syncFunc` of `handleExecve`: send the credential record, receive one
command, fail on a send error, a receive error or the kill command. -/
def syncFunc (env : Env) (pid : Int) : List Event × Option GoError :=
  let msg2 : Msg :=
    { Fds := [],
      Cred := some { Pid := toInt32 pid, Uid := toUint32 env.uid, Gid := toUint32 env.gid } }
  let send := Event.sendReply { ExecReply := none } (some msg2)
  match env.sendHandshake with
  | some err2 => ([send], some (.errorf1 "syncFunc: sendReply(%v)" err2))
  | none =>
    match env.recvHandshake with
    | .err err2 => ([send, .recvCmd (.err err2)], some (.errorf1 "syncFunc: recvCmd(%v)" err2))
    | .ok cmd2 =>
      if cmd2.Cmd == cmdKill then
        ([send, .recvCmd (.ok cmd2)], some (.errorf0 "syncFunc: received kill"))
      else
        ([send, .recvCmd (.ok cmd2)], none)

/-! ## The launcher -/

/-- What `Runner.Start` hands back: the actions of the callback it ran, and `(pid, err)`. -/
structure StartResult where
  events : List Event
  pid : Int
  err : Option GoError
  deriving DecidableEq, Repr

/-- Modelled from the spec: `forkexec.Runner.Start`, which lives in package `forkexec`.
The launcher creates the child, invokes the synchronization callback
once with the child's identifier before the target program runs, treats a failed callback
as a failed launch, and returns the child's identifier or a launch error. -/
def Runner.Start (_r : Runner) (SyncFunc : Int → List Event × Option GoError) :
    LaunchScript → StartResult
  | .fails e => { events := [], pid := 0, err := some e }
  | .created pid later =>
    match SyncFunc pid with
    | (evs, some e) => { events := evs, pid := 0, err := some e }
    | (evs, none) =>
      match later with
      | some e => { events := evs, pid := 0, err := some e }
      | none => { events := evs, pid := pid, err := none }

/-- Modelled from the spec: `intSliceToUintptr`, declared in another file of the package,
converts the received descriptor list element by element. -/
def intSliceToUintptr (fds : List Int) : List Nat := fds.map toUint64

/-! ## The kill-listening flow -/

/-- The reap loop `for { if pid, err := Wait4(-1, nil, WNOHANG, nil); err != EINTR || pid <= 0
{ break } }`, run against the scripted outcomes of the successive calls; a call beyond the
script finds no children left (`ECHILD`). -/
def reapLoop : List WaitOutcome → List Event
  | [] => [.wait4 (-1) WNOHANG (-1) (some ECHILD)]
  | o :: rest =>
    .wait4 (-1) WNOHANG o.pid o.err ::
      (if o.err != some EINTR || decide (o.pid ≤ 0) then [] else reapLoop rest)

/-- The goroutine `go func() { defer close(killDone); c.recvCmd(); syscall.Kill(-1, SIGKILL);
<-waitDone; for {...} }()` in program order; the result of `recvCmd` is discarded. -/
def killFlow (recvKill : RecvResult) (reap : List WaitOutcome) : List Event :=
  [.recvCmd recvKill, .kill (-1) SIGKILL, .recv .waitDone] ++ reapLoop reap ++ [.close .killDone]

/-! ## Classification of the wait status -/

/-- The `else` branch after the wait: the reply chosen by the `switch` on the wait status. -/
def classify (wstatus : WaitStatus) (rusage : Rusage) : Event :=
  let status := Status.StatusNormal
  let userTime := rusage.Utime.Nano
  let userMem := toUint64 (wrap64 (rusage.Maxrss * 2 ^ 10))
  if WaitStatus.Exited wstatus then
    let exitStatus := WaitStatus.ExitStatus wstatus
    .sendReply
      { ExecReply := some
          { Status := status, ExitStatus := exitStatus, Time := userTime, Memory := userMem } }
      none
  else if WaitStatus.Signaled wstatus then
    let sig := WaitStatus.Signal wstatus
    let status :=
      if sig = SIGXCPU ∨ sig = SIGKILL then Status.StatusTimeLimitExceeded
      else if sig = SIGXFSZ then Status.StatusOutputLimitExceeded
      else if sig = SIGSYS then Status.StatusDisallowedSyscall
      else Status.StatusSignalled
    .sendReply
      { ExecReply := some
          { ExitStatus := WaitStatus.Signal wstatus, Status := status, Time := userTime,
            Memory := userMem } }
      none
  else
    .sendErrorReply "execve: unknown status %v" (some (.wstatus wstatus))

/-! ## The primary flow -/

/-- The wait and the reply that follows it: `if err == nil { _, err = Wait4(pid, ...) }`, then
`sendErrorReply("execve: wait4 %v", err)` when `err != nil`, else the classified reply.
The first component is the wait action (absent when the launch returned an error). -/
def waitAndReply (env : Env) (st : StartResult) : List Event × Event :=
  match st.err with
  | some err => ([], .sendErrorReply "execve: wait4 %v" (some (.err err)))
  | none =>
    match env.wait with
    | .ok wstatus rusage => ([.wait4 st.pid 0 st.pid none], classify wstatus rusage)
    | .err e =>
      ([.wait4 st.pid 0 (-1) (some e)],
        .sendErrorReply "execve: wait4 %v" (some (.err (.errno e))))

/-- The primary flow from the wait to the return, in program order: the wait (only when the
launch returned no error), `close(waitDone)`, the reply, `<-killDone`, the closing
`Reply{}`, the deferred `closeFds`, the return. -/
def primaryFlow (env : Env) (st : StartResult) (deferred : List Event) : List Event :=
  (waitAndReply env st).1
    ++ [.close .waitDone, (waitAndReply env st).2, .recv .killDone,
        .sendReply { ExecReply := none } none]
    ++ deferred ++ [.ret env.sendFinal]

/-- The actions of one call of `handleExecve`: `pre` is what the handler does before the
`go` statement (all of the call when it returns early), `main` and `kill` are the primary
and the kill-listening flow after it, `ret` is the value returned. -/
structure Flows where
  pre : List Event
  main : List Event
  kill : List Event
  ret : Option GoError
  deriving DecidableEq, Repr

/-- The handler `containerServer.handleExecve`. -/
def handleExecve (c : containerServer) (cmd : Option ExecCmd) (msg : Option Msg) (env : Env) :
    Flows :=
  match cmd with
  | none =>
    { pre := [.sendErrorReply "execve: no parameter provided" none, .ret env.sendResult],
      main := [], kill := [], ret := env.sendResult }
  | some cmd =>
    let files : List Nat := match msg with
      | some m => intSliceToUintptr m.Fds
      | none => []
    let marked : List Event := match msg with
      | some m => [.closeOnExecFds m.Fds]
      | none => []
    let deferred : List Event := match msg with
      | some m => [.closeFds m.Fds]
      | none => []
    if cmd.FdExec && files.length == 0 then
      let err := GoError.errorf0 "execve: expected fexecve fd"
      { pre := marked ++ deferred ++ [.ret (some err)], main := [], kill := [], ret := some err }
    else
      let execFile : Nat := if cmd.FdExec then files.headD 0 else 0
      let files : List Nat := if cmd.FdExec then files.tail else files
      let cred : Option Credential :=
        if c.Cred then
          some { Uid := c.containerUID, Gid := c.containerGID, NoSetGroups := true }
        else none
      let r : Runner :=
        { Args := cmd.Argv, Env := cmd.Env, ExecFile := execFile, RLimits := cmd.RLimits,
          Files := files, WorkDir := "/w", NoNewPrivs := true, DropCaps := true,
          Credential := cred }
      let st := r.Start (syncFunc env) env.launch
      { pre := marked ++ [.start r] ++ st.events,
        main := primaryFlow env st deferred,
        kill := killFlow env.recvKill env.reap,
        ret := env.sendFinal }

/-! ## Interleavings -/

/-- The two flows of an exec cycle. -/
inductive Flow where
  | primary
  | killer
  deriving DecidableEq, Repr

/-- A point of an execution: what each flow still has to do, the channels closed so far,
and the actions taken so far, each with the flow that took it. -/
structure Config where
  main : List Event
  kill : List Event
  closed : List Chan
  trace : List (Flow × Event)
  deriving DecidableEq, Repr

/-- A receive `<-ch` on a channel that never carries a value completes only once the
channel is closed; every other action can be taken at once. -/
def enabled (closed : List Chan) : Event → Bool
  | .recv ch => closed.contains ch
  | _ => true

/-- The channels closed after an action. -/
def closedAfter (closed : List Chan) : Event → List Chan
  | .close ch => ch :: closed
  | _ => closed

/-- One scheduling decision: the chosen flow takes its next action if it has one and is not
blocked; otherwise nothing happens. -/
def step (f : Flow) (c : Config) : Config :=
  match f with
  | .primary =>
    match c.main with
    | [] => c
    | e :: rest =>
      if enabled c.closed e then
        { main := rest, kill := c.kill, closed := closedAfter c.closed e,
          trace := c.trace ++ [(.primary, e)] }
      else c
  | .killer =>
    match c.kill with
    | [] => c
    | e :: rest =>
      if enabled c.closed e then
        { main := c.main, kill := rest, closed := closedAfter c.closed e,
          trace := c.trace ++ [(.killer, e)] }
      else c

/-- Execution under a schedule. -/
def run : List Flow → Config → Config
  | [], c => c
  | f :: fs, c => run fs (step f c)

/-- The configuration at the `go` statement (or at the early return). -/
def Flows.init (fl : Flows) : Config :=
  { main := fl.main, kill := fl.kill, closed := [], trace := fl.pre.map (fun e => (Flow.primary, e)) }

/-- One exec cycle under a schedule. -/
def execute (c : containerServer) (cmd : Option ExecCmd) (msg : Option Msg) (env : Env)
    (sched : List Flow) : Config :=
  run sched (handleExecve c cmd msg env).init

/-- The handler has returned: the primary flow has nothing left to do. -/
def Config.returned (c : Config) : Prop := c.main = []

instance (c : Config) : Decidable c.returned := by
  unfold Config.returned; infer_instance

/-! ## Reading a trace -/

/-- The actions of one flow in a trace, in order. -/
def proj (f : Flow) (tr : List (Flow × Event)) : List Event :=
  (tr.filter (fun x => decide (x.1 = f))).map Prod.snd

/-- A terminal reply: a reply carrying an `ExecReply`, or an error reply. -/
def isTerminalReply : Event → Bool
  | .sendReply r _ => r.ExecReply.isSome
  | .sendErrorReply _ _ => true
  | _ => false

/-- The terminal replies sent in a trace, by whichever flow, in order. -/
def terminalReplies (tr : List (Flow × Event)) : List Event :=
  (tr.map Prod.snd).filter isTerminalReply

/-- Every `q`-action of the list has a `p`-action strictly before it. -/
def Precedes {α : Type} (p q : α → Prop) (l : List α) : Prop :=
  ∀ pre x post, l = pre ++ x :: post → q x → ∃ y ∈ pre, p y

/-- No `q`-action of the list comes after a `p`-action. -/
def NeverAfter {α : Type} (p q : α → Prop) (l : List α) : Prop :=
  ∀ pre x post, l = pre ++ x :: post → q x → ∀ y ∈ pre, ¬ p y

/-- A wait call: the blocking wait on the child when taken by the primary flow, a
non-blocking reaping wait when taken by the kill-listening flow. -/
def isWait : Event → Prop
  | .wait4 _ _ _ _ => True
  | _ => False

/-- The return of the handler. -/
def isReturn : Event → Prop
  | .ret _ => True
  | _ => False

/-- The request passes validation: it is not nil, and if it asks for exec-by-descriptor
the message carries at least one descriptor. -/
def Launches (cmd : Option ExecCmd) (msg : Option Msg) : Prop :=
  ∃ x, cmd = some x ∧ ¬ (x.FdExec = true ∧ (msg = none ∨ ∃ m, msg = some m ∧ m.Fds = []))


/-! ## The invariant of an execution -/

/-- What holds at every point of every execution of the flows `fl`: each flow has done an
initial part of its program, the trace shows exactly these parts, a channel counted as
closed was closed in the trace, and every receive follows the close of its channel. -/
structure Inv (fl : Flows) (c : Config) : Prop where
  main_split : ∃ md, md ++ c.main = fl.main ∧ proj .primary c.trace = fl.pre ++ md
  kill_split : ∃ kd, kd ++ c.kill = fl.kill ∧ proj .killer c.trace = kd
  closed_sound : ∀ ch ∈ c.closed, ∃ f, (f, Event.close ch) ∈ c.trace
  chan_ok : ∀ ch, Precedes (fun x : Flow × Event => x.2 = .close ch)
    (fun x : Flow × Event => x.2 = .recv ch) c.trace

/-! ## The reap loop in the words of the specification -/

/-- The reap loop as the specification words it: reap non-blocking again after every call
that reaped a zombie (positive pid, no error) and after every interrupted call, and stop at
the first other outcome. -/
def reapLoopSpec : List WaitOutcome → List Event
  | [] => [.wait4 (-1) WNOHANG (-1) (some ECHILD)]
  | o :: rest =>
    .wait4 (-1) WNOHANG o.pid o.err ::
      (if (o.err = none ∧ 0 < o.pid) ∨ o.err = some EINTR then reapLoopSpec rest else [])

/-! ## Sample inputs -/

/-- The credential record of the handshake: the child pid as an `int32`, and the uid and
gid of the session process as `uint32`. -/
def handshakeCred (env : Env) (pid : Int) : Ucred :=
  { Pid := toInt32 pid, Uid := toUint32 env.uid, Gid := toUint32 env.gid }

/-- A request for `/bin/true` without descriptors. -/
def sampleCmd : ExecCmd := { Argv := ["/bin/true"], Env := [], RLimits := [], FdExec := false }

/-- A session that drops privileges. -/
def sampleServer : containerServer := { Cred := true, containerUID := 1000, containerGID := 1000 }

/-- A runner with no data, to name the launch result where the runner does not matter. -/
def emptyRunner : Runner :=
  { Args := [], Env := [], ExecFile := 0, RLimits := [], Files := [], WorkDir := "",
    NoNewPrivs := false, DropCaps := false, Credential := none }

/-- Child 42 is created, the controller answers the handshake with `ok`, the child exits
with code 3 after 1.0005 s of user time and a peak of 2048 kB, and the controller then
sends the kill command; two zombies are pending when the reap loop starts. -/
def envExit : Env :=
  { uid := 0, gid := 0, launch := .created 42 none, sendHandshake := none,
    recvHandshake := .ok { Cmd := "ok" },
    wait := .ok (3 * 256) { Utime := { Sec := 1, Usec := 500 }, Maxrss := 2048 },
    recvKill := .ok { Cmd := "kill" },
    reap := [{ pid := 101, err := none }, { pid := 102, err := none }, { pid := 0, err := none }],
    sendResult := none, sendFinal := none }

/-- As `envExit`, but the child is terminated by `SIGXCPU`. -/
def envSignal : Env :=
  { envExit with wait := .ok 24 { Utime := { Sec := 1, Usec := 0 }, Maxrss := 2048 } }

/-- As `envExit`, but the controller answers the handshake with the kill command. -/
def envVeto : Env := { envExit with recvHandshake := .ok { Cmd := "kill" } }

/-- As `envExit`, but the IPC channel is closed and the receive of the kill-listening flow
fails. -/
def envClosed : Env := { envExit with recvKill := .err (.ext "EOF") }

/-- A schedule: the primary flow runs until it blocks, then the kill-listening flow runs to
its end, then the primary flow finishes. -/
def sampleSchedule : List Flow :=
  List.replicate 8 .primary ++ List.replicate 8 .killer ++ List.replicate 8 .primary

/-- An interleaving in which the controller's kill command arrives while the child is
still running: the kill-listening flow receives and sends the signal first, then the
primary flow's wait returns. -/
def raceSchedule : List Flow :=
  [.killer, .killer, .primary, .primary, .killer, .primary, .killer, .killer, .primary,
    .primary, .primary]

/-! ## Ordering lemmas -/

theorem Precedes.nil {α : Type} (p q : α → Prop) : Precedes p q [] := by
  intro pre x post h
  simp at h

theorem Precedes.snoc {α : Type} {p q : α → Prop} {l : List α} {x : α}
    (h : Precedes p q l) (hx : q x → ∃ y ∈ l, p y) : Precedes p q (l ++ [x]) := by
  intro pre z post heq hz
  rcases List.eq_nil_or_concat post with hpost | ⟨post1, w, hpost⟩
  · subst hpost
    have h2 : l ++ [x] = pre ++ [z] := heq
    obtain ⟨h3, h4⟩ := List.append_inj' h2 rfl
    have h5 : x = z := by simpa using h4
    subst h3 h5
    exact hx hz
  · subst hpost
    have h2 : l ++ [x] = (pre ++ z :: post1) ++ [w] := by
      simpa [List.append_assoc] using heq
    obtain ⟨h3, _⟩ := List.append_inj' h2 rfl
    exact h pre z post1 h3 hz

theorem Precedes.of_append {α : Type} {p q : α → Prop} {a b : List α}
    (h : Precedes p q (a ++ b)) : Precedes p q a := by
  intro pre x post heq hx
  exact h pre x (post ++ b) (by simp [heq]) hx

theorem Precedes.mono {α : Type} {p q r s : α → Prop} {l : List α}
    (h : Precedes p q l) (hp : ∀ x, p x → r x) (hq : ∀ x, s x → q x) : Precedes r s l := by
  intro pre x post heq hx
  obtain ⟨y, hy, hpy⟩ := h pre x post heq (hq x hx)
  exact ⟨y, hy, hp y hpy⟩

theorem Precedes.trans {α : Type} {p q r : α → Prop} {l : List α}
    (h1 : Precedes p r l) (h2 : Precedes r q l) : Precedes p q l := by
  intro pre x post heq hx
  obtain ⟨y, hy, hry⟩ := h2 pre x post heq hx
  obtain ⟨pre1, post1, hsplit⟩ := List.append_of_mem hy
  obtain ⟨z, hz, hpz⟩ := h1 pre1 y (post1 ++ x :: post) (by simp [heq, hsplit]) hry
  exact ⟨z, by simp [hsplit, hz], hpz⟩

/-! ## Projections -/

theorem proj_append (f : Flow) (a b : List (Flow × Event)) :
    proj f (a ++ b) = proj f a ++ proj f b := by
  simp [proj]

theorem proj_same (f : Flow) (e : Event) : proj f [(f, e)] = [e] := by
  simp [proj]

theorem proj_other {f g : Flow} (h : g ≠ f) (e : Event) : proj f [(g, e)] = [] := by
  simp [proj, h]

theorem proj_map_same (f : Flow) (l : List Event) :
    proj f (l.map (fun e => (f, e))) = l := by
  induction l with
  | nil => rfl
  | cons a t ih =>
    have h := proj_append f [(f, a)] (t.map (fun e => (f, e)))
    simp only [List.map_cons, List.singleton_append] at h ⊢
    rw [h, ih, proj_same]
    rfl

theorem proj_map_other {f g : Flow} (h : g ≠ f) (l : List Event) :
    proj f (l.map (fun e => (g, e))) = [] := by
  induction l with
  | nil => rfl
  | cons a t ih =>
    have h2 := proj_append f [(g, a)] (t.map (fun e => (g, e)))
    simp only [List.map_cons, List.singleton_append] at h2 ⊢
    rw [h2, ih, proj_other h]
    rfl

theorem mem_proj {f : Flow} {e : Event} {tr : List (Flow × Event)} :
    e ∈ proj f tr ↔ (f, e) ∈ tr := by
  simp only [proj, List.mem_map, List.mem_filter, decide_eq_true_eq]
  constructor
  · rintro ⟨⟨g, e2⟩, ⟨hmem, hg⟩, he⟩
    simp only at hg he
    subst hg he
    exact hmem
  · intro h
    exact ⟨(f, e), ⟨h, rfl⟩, rfl⟩

/-- Program order within one flow carries over to the trace. -/
theorem Precedes.of_proj {f : Flow} {p q : Event → Prop} {tr : List (Flow × Event)}
    (h : Precedes p q (proj f tr)) :
    Precedes (fun x => x.1 = f ∧ p x.2) (fun x => x.1 = f ∧ q x.2) tr := by
  intro pre x post heq hx
  obtain ⟨g, e⟩ := x
  obtain ⟨hg, hq⟩ := hx
  simp only at hg hq
  subst hg
  have h2 : proj g tr = proj g pre ++ e :: proj g post := by
    rw [heq, proj_append]
    have h3 := proj_append g [(g, e)] post
    simp only [List.singleton_append] at h3
    rw [h3, proj_same]
    rfl
  obtain ⟨y, hy, hpy⟩ := h (proj g pre) e (proj g post) h2 hq
  exact ⟨(g, y), mem_proj.mp hy, rfl, hpy⟩

theorem NeverAfter.via_proj {f : Flow} {p q : Event → Prop} {tr : List (Flow × Event)}
    (h : NeverAfter p q (proj f tr)) :
    NeverAfter (fun x => x.1 = f ∧ p x.2) (fun x => x.1 = f ∧ q x.2) tr := by
  intro pre x post heq hx y hy hpy
  obtain ⟨g, e⟩ := x
  obtain ⟨hg, hq⟩ := hx
  simp only at hg hq
  subst hg
  have h2 : proj g tr = proj g pre ++ e :: proj g post := by
    rw [heq, proj_append]
    have h3 := proj_append g [(g, e)] post
    simp only [List.singleton_append] at h3
    rw [h3, proj_same]
    rfl
  obtain ⟨g2, e2⟩ := y
  obtain ⟨hg2, hp2⟩ := hpy
  simp only at hg2 hp2
  subst hg2
  exact h (proj g2 pre) e (proj g2 post) h2 hq e2 (mem_proj.mpr hy) hp2

theorem NeverAfter.initial {α : Type} {p q : α → Prop} {a b : List α}
    (h : NeverAfter p q (a ++ b)) : NeverAfter p q a := by
  intro pre x post heq hx
  exact h pre x (post ++ b) (by simp [heq]) hx


/-! ## The invariant is kept by every step -/

theorem mem_closedAfter {cl : List Chan} {e : Event} {ch : Chan}
    (h : ch ∈ closedAfter cl e) : ch ∈ cl ∨ e = .close ch := by
  cases e <;> simp [closedAfter] at h <;> try exact Or.inl h
  rcases h with h | h
  · exact Or.inr (by rw [h])
  · exact Or.inl h

theorem enabled_recv {cl : List Chan} {ch : Chan} (h : enabled cl (.recv ch) = true) :
    ch ∈ cl := by
  simpa [enabled] using h

theorem Inv.init (fl : Flows) (h : ∀ ch, Event.recv ch ∉ fl.pre) : Inv fl fl.init := by
  refine ⟨⟨[], rfl, ?_⟩, ⟨[], rfl, ?_⟩, ?_, ?_⟩
  · simp [Flows.init, proj_map_same]
  · simp only [Flows.init]
    exact proj_map_other (by decide) _
  · intro ch hch
    simp [Flows.init] at hch
  · intro ch pre x post heq hx
    exfalso
    have hmem : x ∈ fl.init.trace := by rw [heq]; simp
    simp only [Flows.init, List.mem_map] at hmem
    obtain ⟨e, he, rfl⟩ := hmem
    simp only at hx
    exact h ch (hx ▸ he)

theorem Inv.snoc_chan {fl : Flows} {c : Config} (hinv : Inv fl c) (f : Flow) (e : Event)
    (hen : enabled c.closed e = true) (ch : Chan) :
    Precedes (fun x : Flow × Event => x.2 = .close ch)
      (fun x : Flow × Event => x.2 = .recv ch) (c.trace ++ [(f, e)]) := by
  refine (hinv.chan_ok ch).snoc ?_
  intro hx
  simp only at hx
  subst hx
  obtain ⟨g, hg⟩ := hinv.closed_sound ch (enabled_recv hen)
  exact ⟨(g, .close ch), hg, rfl⟩

theorem Inv.snoc_closed {fl : Flows} {c : Config} (hinv : Inv fl c) (f : Flow) (e : Event) :
    ∀ ch ∈ closedAfter c.closed e, ∃ g, (g, Event.close ch) ∈ c.trace ++ [(f, e)] := by
  intro ch hch
  rcases mem_closedAfter hch with h | h
  · obtain ⟨g, hg⟩ := hinv.closed_sound ch h
    exact ⟨g, List.mem_append_left _ hg⟩
  · exact ⟨f, by simp [h]⟩

theorem Inv.step {fl : Flows} {c : Config} (hinv : Inv fl c) (f : Flow) :
    Inv fl (step f c) := by
  cases f with
  | primary =>
    unfold Daemon.step
    simp only
    split
    · exact hinv
    · rename_i e rest hm
      split
      · rename_i hen
        obtain ⟨md, hmd, hpm⟩ := hinv.main_split
        obtain ⟨kd, hkd, hpk⟩ := hinv.kill_split
        refine ⟨⟨md ++ [e], ?_, ?_⟩, ⟨kd, hkd, ?_⟩, hinv.snoc_closed _ e,
          fun ch => hinv.snoc_chan _ e hen ch⟩
        · simp only [List.append_assoc, List.singleton_append]
          rw [← hm]; exact hmd
        · simp only
          rw [proj_append, hpm, proj_same, List.append_assoc]
        · simp only
          rw [proj_append, hpk, proj_other (by decide), List.append_nil]
      · exact hinv
  | killer =>
    unfold Daemon.step
    simp only
    split
    · exact hinv
    · rename_i e rest hm
      split
      · rename_i hen
        obtain ⟨md, hmd, hpm⟩ := hinv.main_split
        obtain ⟨kd, hkd, hpk⟩ := hinv.kill_split
        refine ⟨⟨md, hmd, ?_⟩, ⟨kd ++ [e], ?_, ?_⟩, hinv.snoc_closed _ e,
          fun ch => hinv.snoc_chan _ e hen ch⟩
        · simp only
          rw [proj_append, hpm, proj_other (by decide), List.append_nil]
        · simp only [List.append_assoc, List.singleton_append]
          rw [← hm]; exact hkd
        · simp only
          rw [proj_append, hpk, proj_same]
      · exact hinv

theorem Inv.run {fl : Flows} (sched : List Flow) :
    ∀ {c : Config}, Inv fl c → Inv fl (run sched c) := by
  induction sched with
  | nil => intro c h; exact h
  | cons f fs ih => intro c h; exact ih (h.step f)


/-! ## Shape of the handler's flows -/

/-- The handshake consists of the credential send and at most one receive. -/
theorem syncFunc_events (env : Env) (pid : Int) :
    ∀ e ∈ (syncFunc env pid).1,
      (∃ m, e = .sendReply { ExecReply := none } (some m)) ∨ (∃ r, e = .recvCmd r) := by
  intro e he
  unfold syncFunc at he
  simp only at he
  split at he
  · simp at he; exact Or.inl ⟨_, he⟩
  · split at he
    · simp at he
      rcases he with he | he
      · exact Or.inl ⟨_, he⟩
      · exact Or.inr ⟨_, he⟩
    · split at he <;>
      · simp at he
        rcases he with he | he
        · exact Or.inl ⟨_, he⟩
        · exact Or.inr ⟨_, he⟩

/-- The launcher acts on the channel only through the handshake. -/
theorem Start_events (r : Runner) (env : Env) (s : LaunchScript) :
    ∀ e ∈ (r.Start (syncFunc env) s).events,
      (∃ m, e = .sendReply { ExecReply := none } (some m)) ∨ (∃ r, e = .recvCmd r) := by
  intro e he
  cases s with
  | fails err => simp [Runner.Start] at he
  | created pid later =>
    have key := syncFunc_events env pid
    simp only [Runner.Start] at he
    split at he
    · rename_i evs err heq
      exact key e (by rw [heq]; exact he)
    · rename_i evs heq
      split at he <;> exact key e (by rw [heq]; exact he)

/-- The modelled launcher does not look at the runner's data: its result depends on the
script and the callback alone. -/
theorem Start_indep (r r2 : Runner) (f : Int → List Event × Option GoError)
    (s : LaunchScript) : r.Start f s = r2.Start f s := by
  cases s <;> rfl

/-- A request that passes validation is launched: the handler marks the descriptors, starts
the runner, and spawns the kill-listening flow next to the primary flow. -/
theorem handleExecve_launches {c : containerServer} {cmd : Option ExecCmd} {msg : Option Msg}
    (env : Env) (h : Launches cmd msg) :
    ∃ (r : Runner) (marked deferred : List Event),
      (∀ e ∈ marked, ∃ fds, e = .closeOnExecFds fds) ∧
      (∀ e ∈ deferred, ∃ fds, e = .closeFds fds) ∧
      handleExecve c cmd msg env =
        { pre := marked ++ [.start r] ++ (r.Start (syncFunc env) env.launch).events,
          main := primaryFlow env (r.Start (syncFunc env) env.launch) deferred,
          kill := killFlow env.recvKill env.reap,
          ret := env.sendFinal } := by
  obtain ⟨x, rfl, hx⟩ := h
  cases msg with
  | none =>
    have hf : x.FdExec = false := by
      cases hfe : x.FdExec
      · rfl
      · exact absurd ⟨hfe, Or.inl rfl⟩ hx
    refine ⟨{ Args := x.Argv, Env := x.Env, ExecFile := 0, RLimits := x.RLimits, Files := [],
              WorkDir := "/w", NoNewPrivs := true, DropCaps := true,
              Credential := if c.Cred then
                some { Uid := c.containerUID, Gid := c.containerGID, NoSetGroups := true }
                else none },
      [], [], by simp, by simp, ?_⟩
    simp [handleExecve, hf]
  | some m =>
    have hf : (x.FdExec && (intSliceToUintptr m.Fds).length == 0) = false := by
      cases hfe : x.FdExec
      · rfl
      · cases hfd : m.Fds with
        | nil => exact absurd ⟨hfe, Or.inr ⟨m, rfl, hfd⟩⟩ hx
        | cons a t => simp [intSliceToUintptr]
    refine ⟨{ Args := x.Argv, Env := x.Env,
              ExecFile := if x.FdExec then (intSliceToUintptr m.Fds).headD 0 else 0,
              RLimits := x.RLimits,
              Files := if x.FdExec then (intSliceToUintptr m.Fds).tail
                else intSliceToUintptr m.Fds,
              WorkDir := "/w", NoNewPrivs := true, DropCaps := true,
              Credential := if c.Cred then
                some { Uid := c.containerUID, Gid := c.containerGID, NoSetGroups := true }
                else none },
      [.closeOnExecFds m.Fds], [.closeFds m.Fds], by simp, by simp, ?_⟩
    simp only [handleExecve, hf]
    rfl

/-- Before the `go` statement (or the early return) the handler receives on no channel. -/
theorem handleExecve_pre_no_recv (c : containerServer) (cmd : Option ExecCmd)
    (msg : Option Msg) (env : Env) (ch : Chan) :
    Event.recv ch ∉ (handleExecve c cmd msg env).pre := by
  intro hmem
  cases cmd with
  | none => simp [handleExecve] at hmem
  | some x =>
    by_cases hl : Launches (some x) msg
    · obtain ⟨r, marked, deferred, hm, _, heq⟩ := handleExecve_launches (c := c) env hl
      rw [heq] at hmem
      simp only [List.mem_append, List.mem_singleton] at hmem
      rcases hmem with (hmem | hmem) | hmem
      · obtain ⟨fds, hfds⟩ := hm _ hmem
        cases hfds
      · cases hmem
      · rcases Start_events r env _ _ hmem with ⟨m, hm2⟩ | ⟨r2, hr2⟩
        · cases hm2
        · cases hr2
    · unfold handleExecve at hmem
      simp only at hmem
      split at hmem
      · cases msg <;> simp at hmem
      · rename_i hcond
        apply hl
        refine ⟨x, rfl, ?_⟩
        rintro ⟨hfe, hmsg⟩
        apply hcond
        rcases hmsg with rfl | ⟨m, rfl, hm⟩
        · simp [hfe]
        · simp [hfe, hm, intSliceToUintptr]

/-- The invariant holds at every point of every execution of an exec cycle. -/
theorem execute_inv (c : containerServer) (cmd : Option ExecCmd) (msg : Option Msg)
    (env : Env) (sched : List Flow) :
    Inv (handleExecve c cmd msg env) (execute c cmd msg env sched) :=
  Inv.run sched (Inv.init _ (fun ch => handleExecve_pre_no_recv c cmd msg env ch))


/-! ## Running a flow for a while -/

theorem run_append (s1 s2 : List Flow) (c : Config) :
    run (s1 ++ s2) c = run s2 (run s1 c) := by
  induction s1 generalizing c with
  | nil => rfl
  | cons f fs ih => exact ih (step f c)

theorem subset_closedAfter {cl : List Chan} {ch : Chan} (e : Event) (h : ch ∈ cl) :
    ch ∈ closedAfter cl e := by
  cases e <;> simp [closedAfter, h]

theorem subset_foldl_closedAfter (a : List Event) :
    ∀ {cl : List Chan} {ch : Chan}, ch ∈ cl → ch ∈ a.foldl closedAfter cl := by
  induction a with
  | nil => intro cl ch h; exact h
  | cons e t ih => intro cl ch h; exact ih (subset_closedAfter e h)

theorem close_mem_foldl_closedAfter (a : List Event) :
    ∀ {cl : List Chan} {ch : Chan}, Event.close ch ∈ a → ch ∈ a.foldl closedAfter cl := by
  induction a with
  | nil => intro cl ch h; simp at h
  | cons e t ih =>
    intro cl ch h
    rcases List.mem_cons.mp h with h | h
    · subst h
      exact subset_foldl_closedAfter t (by simp [closedAfter])
    · exact ih h

theorem enabled_of_recv_closed {cl : List Chan} {e : Event}
    (h : ∀ ch, e = .recv ch → ch ∈ cl) : enabled cl e = true := by
  cases e <;> simp [enabled]
  exact h _ rfl

/-- The primary flow, scheduled alone, takes all the actions `a` in front of it when every
receive among them is on a channel already closed. -/
theorem run_primary (a : List Event) :
    ∀ (rest k : List Event) (cl : List Chan) (tr : List (Flow × Event)),
      (∀ e ∈ a, ∀ ch, e = .recv ch → ch ∈ cl) →
      run (List.replicate a.length .primary)
          { main := a ++ rest, kill := k, closed := cl, trace := tr } =
        { main := rest, kill := k, closed := a.foldl closedAfter cl,
          trace := tr ++ a.map (fun e => (Flow.primary, e)) } := by
  induction a with
  | nil => intro rest k cl tr _; simp [run]
  | cons e t ih =>
    intro rest k cl tr h
    have hen : enabled cl e = true := enabled_of_recv_closed (h e (by simp))
    simp only [List.length_cons, List.replicate_succ, run, step, List.cons_append, hen, if_true]
    rw [ih rest k (closedAfter cl e) (tr ++ [(Flow.primary, e)])
      (fun e2 he2 ch hch => subset_closedAfter e (h e2 (List.mem_cons_of_mem _ he2) ch hch))]
    simp

/-- The kill-listening flow, scheduled alone, likewise. -/
theorem run_killer (a : List Event) :
    ∀ (rest m : List Event) (cl : List Chan) (tr : List (Flow × Event)),
      (∀ e ∈ a, ∀ ch, e = .recv ch → ch ∈ cl) →
      run (List.replicate a.length .killer)
          { main := m, kill := a ++ rest, closed := cl, trace := tr } =
        { main := m, kill := rest, closed := a.foldl closedAfter cl,
          trace := tr ++ a.map (fun e => (Flow.killer, e)) } := by
  induction a with
  | nil => intro rest m cl tr _; simp [run]
  | cons e t ih =>
    intro rest m cl tr h
    have hen : enabled cl e = true := enabled_of_recv_closed (h e (by simp))
    simp only [List.length_cons, List.replicate_succ, run, step, List.cons_append, hen, if_true]
    rw [ih rest m (closedAfter cl e) (tr ++ [(Flow.killer, e)])
      (fun e2 he2 ch hch => subset_closedAfter e (h e2 (List.mem_cons_of_mem _ he2) ch hch))]
    simp

/-- Every action of the reap loop is a non-blocking wait on any child. -/
theorem reapLoop_events (reap : List WaitOutcome) :
    ∀ e ∈ reapLoop reap, ∃ wpid err, e = .wait4 (-1) WNOHANG wpid err := by
  induction reap with
  | nil => intro e he; simp [reapLoop] at he; exact ⟨_, _, he⟩
  | cons o rest ih =>
    intro e he
    simp only [reapLoop, List.mem_cons] at he
    rcases he with he | he
    · exact ⟨_, _, he⟩
    · split at he
      · simp at he
      · exact ih e he

/-- The actions of the kill-listening flow. -/
theorem killFlow_events (rk : RecvResult) (reap : List WaitOutcome) :
    ∀ e ∈ killFlow rk reap,
      e = .recvCmd rk ∨ e = .kill (-1) SIGKILL ∨ e = .recv .waitDone ∨
      (∃ wpid err, e = .wait4 (-1) WNOHANG wpid err) ∨ e = .close .killDone := by
  intro e he
  simp only [killFlow, List.mem_append, List.mem_cons, List.mem_singleton, List.not_mem_nil,
    or_false] at he
  rcases he with ((he | he | he) | he) | he
  · exact Or.inl he
  · exact Or.inr (Or.inl he)
  · exact Or.inr (Or.inr (Or.inl he))
  · exact Or.inr (Or.inr (Or.inr (Or.inl (reapLoop_events reap e he))))
  · exact Or.inr (Or.inr (Or.inr (Or.inr he)))

/-- An exec cycle can always run to its end: under some schedule the handler returns and
the kill-listening flow has finished. -/
theorem handleExecve_returns (c : containerServer) (cmd : Option ExecCmd) (msg : Option Msg)
    (env : Env) :
    ∃ sched, (execute c cmd msg env sched).returned ∧ (execute c cmd msg env sched).kill = [] := by
  by_cases hl : Launches cmd msg
  · obtain ⟨r, marked, deferred, _, hd, heq⟩ := handleExecve_launches (c := c) env hl
    let st := r.Start (syncFunc env) env.launch
    let a1 : List Event := (waitAndReply env st).1 ++ [.close .waitDone, (waitAndReply env st).2]
    let a2 : List Event :=
      [.recv .killDone, .sendReply { ExecReply := none } none] ++ deferred ++ [.ret env.sendFinal]
    let K := killFlow env.recvKill env.reap
    have hmain : primaryFlow env st deferred = a1 ++ a2 := by
      simp [primaryFlow, a1, a2]
    have h1 : ∀ e ∈ a1, ∀ ch, e = Event.recv ch → ch ∈ ([] : List Chan) := by
      intro e he ch hch
      subst hch
      exfalso
      simp only [a1, List.mem_append, List.mem_cons, List.mem_singleton, List.not_mem_nil,
        or_false] at he
      rcases he with he | he | he
      · unfold waitAndReply at he
        split at he
        · simp at he
        · split at he <;> simp at he
      · cases he
      · unfold waitAndReply at he
        split at he
        · cases he
        · split at he
          · unfold classify at he
            simp only at he
            split at he
            · cases he
            · split at he <;> cases he
          · cases he
    have hw : Chan.waitDone ∈ a1.foldl closedAfter [] :=
      close_mem_foldl_closedAfter a1 (by simp [a1])
    have h2 : ∀ e ∈ K, ∀ ch, e = Event.recv ch → ch ∈ a1.foldl closedAfter [] := by
      intro e he ch hch
      subst hch
      rcases killFlow_events _ _ _ he with h | h | h | ⟨_, _, h⟩ | h
      · cases h
      · cases h
      · cases h; exact hw
      · cases h
      · cases h
    have hk : Chan.killDone ∈ K.foldl closedAfter (a1.foldl closedAfter []) :=
      close_mem_foldl_closedAfter K (by simp [K, killFlow])
    have h3 : ∀ e ∈ a2, ∀ ch, e = Event.recv ch →
        ch ∈ K.foldl closedAfter (a1.foldl closedAfter []) := by
      intro e he ch hch
      subst hch
      simp only [a2, List.mem_append, List.mem_cons, List.mem_singleton, List.not_mem_nil,
        or_false] at he
      rcases he with ((he | he) | he) | he
      · cases he; exact hk
      · cases he
      · obtain ⟨fds, hfds⟩ := hd _ he
        cases hfds
      · cases he
    refine ⟨List.replicate a1.length .primary ++
      (List.replicate K.length .killer ++ List.replicate a2.length .primary), ?_⟩
    have hrun : execute c cmd msg env (List.replicate a1.length .primary ++
        (List.replicate K.length .killer ++ List.replicate a2.length .primary)) =
        { main := [], kill := [],
          closed := a2.foldl closedAfter (K.foldl closedAfter (a1.foldl closedAfter [])),
          trace := (((handleExecve c cmd msg env).pre.map (fun e => (Flow.primary, e)) ++
            a1.map (fun e => (Flow.primary, e))) ++ K.map (fun e => (Flow.killer, e))) ++
            a2.map (fun e => (Flow.primary, e)) } := by
      unfold execute
      rw [run_append, run_append]
      have hinit : (handleExecve c cmd msg env).init =
          { main := a1 ++ a2, kill := K ++ [], closed := [],
            trace := (handleExecve c cmd msg env).pre.map (fun e => (Flow.primary, e)) } := by
        simp only [Flows.init, List.append_nil]
        rw [heq]
        simp only [← hmain]
      rw [hinit, run_primary a1 a2 _ _ _ h1, run_killer K [] a2 _ _ h2]
      have h4 := run_primary a2 [] [] (K.foldl closedAfter (a1.foldl closedAfter []))
        ((((handleExecve c cmd msg env).pre.map (fun e => (Flow.primary, e)) ++
            a1.map (fun e => (Flow.primary, e))) ++ K.map (fun e => (Flow.killer, e)))) h3
      simp only [List.append_nil] at h4
      exact h4
    rw [hrun]
    exact ⟨rfl, rfl⟩
  · refine ⟨[], ?_⟩
    cases cmd with
    | none => exact ⟨rfl, rfl⟩
    | some x =>
      have hcond : (x.FdExec && (match msg with
          | some m => intSliceToUintptr m.Fds
          | none => ([] : List Nat)).length == 0) = true := by
        by_contra hc
        apply hl
        refine ⟨x, rfl, ?_⟩
        rintro ⟨hfe, hmsg⟩
        apply hc
        rcases hmsg with rfl | ⟨m, rfl, hm⟩
        · simp [hfe]
        · simp [hfe, hm, intSliceToUintptr]
      simp only [execute, run, handleExecve, hcond, if_true, Flows.init, Config.returned]
      exact ⟨trivial, trivial⟩


/-! ## What a trace of an exec cycle contains -/

/-- Every action in a trace was taken by the flow whose program lists it. -/
theorem mem_trace {fl : Flows} {c : Config} (hinv : Inv fl c) {f : Flow} {e : Event}
    (h : (f, e) ∈ c.trace) :
    (f = .primary ∧ e ∈ fl.pre ++ fl.main) ∨ (f = .killer ∧ e ∈ fl.kill) := by
  cases f with
  | primary =>
    obtain ⟨md, hmd, hpm⟩ := hinv.main_split
    have h2 : e ∈ fl.pre ++ md := by rw [← hpm]; exact mem_proj.mpr h
    refine Or.inl ⟨rfl, ?_⟩
    rw [← hmd]
    simp only [List.mem_append] at h2 ⊢
    tauto
  | killer =>
    obtain ⟨kd, hkd, hpk⟩ := hinv.kill_split
    have h2 : e ∈ kd := by rw [← hpk]; exact mem_proj.mpr h
    refine Or.inr ⟨rfl, ?_⟩
    rw [← hkd]
    exact List.mem_append_left _ h2

/-- Once the handler has returned, the trace shows its whole program. -/
theorem proj_primary_of_returned {fl : Flows} {c : Config} (hinv : Inv fl c)
    (h : c.returned) : proj .primary c.trace = fl.pre ++ fl.main := by
  obtain ⟨md, hmd, hpm⟩ := hinv.main_split
  rw [Config.returned] at h
  rw [h, List.append_nil] at hmd
  rw [hpm, hmd]

theorem terminalReplies_eq_primary (tr : List (Flow × Event))
    (h : ∀ e ∈ proj .killer tr, isTerminalReply e = false) :
    terminalReplies tr = (proj .primary tr).filter isTerminalReply := by
  induction tr with
  | nil => rfl
  | cons x t ih =>
    obtain ⟨f, e⟩ := x
    have ht : ∀ e ∈ proj .killer t, isTerminalReply e = false := by
      intro e2 he2
      exact h e2 (mem_proj.mpr (List.mem_cons_of_mem _ (mem_proj.mp he2)))
    have ih2 := ih ht
    cases f with
    | primary =>
      simp only [terminalReplies, proj] at ih2 ⊢
      simp only [List.map_cons, List.filter_cons, decide_True, if_true]
      rw [ih2]
    | killer =>
      have he : isTerminalReply e = false := h e (mem_proj.mpr (List.mem_cons_self _ _))
      simp only [terminalReplies, proj] at ih2 ⊢
      simp only [List.map_cons, List.filter_cons, he]
      simpa using ih2

theorem killFlow_not_terminal (rk : RecvResult) (reap : List WaitOutcome) :
    ∀ e ∈ killFlow rk reap, isTerminalReply e = false := by
  intro e he
  rcases killFlow_events _ _ _ he with h | h | h | ⟨_, _, h⟩ | h <;> subst h <;> rfl

/-- The reply chosen after the wait is a terminal reply. -/
theorem waitAndReply_terminal (env : Env) (st : StartResult) :
    isTerminalReply (waitAndReply env st).2 = true := by
  unfold waitAndReply
  split
  · rfl
  · split
    · unfold classify
      simp only
      split
      · rfl
      · split <;> rfl
    · rfl

/-- The wait action, when there is one, is a blocking wait and no terminal reply. -/
theorem waitAndReply_wait (env : Env) (st : StartResult) :
    ∀ e ∈ (waitAndReply env st).1, ∃ wpid err, e = .wait4 st.pid 0 wpid err := by
  intro e he
  unfold waitAndReply at he
  split at he
  · simp at he
  · split at he
    · simp at he; exact ⟨_, _, he⟩
    · simp at he; exact ⟨_, _, he⟩

theorem filter_eq_nil_of_forall {l : List Event} (h : ∀ e ∈ l, isTerminalReply e = false) :
    l.filter isTerminalReply = [] := by
  rw [List.filter_eq_nil_iff]
  intro e he
  simp [h e he]

/-- The terminal replies in the program of a launched exec cycle: the one reply chosen
after the wait. -/
theorem terminal_of_launched (env : Env) (r : Runner) (marked deferred : List Event)
    (hm : ∀ e ∈ marked, ∃ fds, e = Event.closeOnExecFds fds)
    (hd : ∀ e ∈ deferred, ∃ fds, e = Event.closeFds fds) :
    ((marked ++ [Event.start r] ++ (r.Start (syncFunc env) env.launch).events) ++
        primaryFlow env (r.Start (syncFunc env) env.launch) deferred).filter isTerminalReply =
      [(waitAndReply env (r.Start (syncFunc env) env.launch)).2] := by
  have h1 : marked.filter isTerminalReply = [] := filter_eq_nil_of_forall (by
    intro e he; obtain ⟨fds, rfl⟩ := hm e he; rfl)
  have h2 : deferred.filter isTerminalReply = [] := filter_eq_nil_of_forall (by
    intro e he; obtain ⟨fds, rfl⟩ := hd e he; rfl)
  have h3 : (r.Start (syncFunc env) env.launch).events.filter isTerminalReply = [] :=
    filter_eq_nil_of_forall (by
      intro e he
      rcases Start_events r env _ e he with ⟨m, rfl⟩ | ⟨r2, rfl⟩ <;> rfl)
  have h4 : (waitAndReply env (r.Start (syncFunc env) env.launch)).1.filter isTerminalReply
      = [] := filter_eq_nil_of_forall (by
    intro e he
    obtain ⟨_, _, rfl⟩ := waitAndReply_wait _ _ e he
    rfl)
  have h5 := waitAndReply_terminal env (r.Start (syncFunc env) env.launch)
  simp only [primaryFlow, List.filter_append, h1, h2, h3, h4, List.filter_cons, h5,
    List.filter_nil, List.nil_append, List.append_nil, if_true]
  simp [isTerminalReply]

/-- In a launched exec cycle, once the handler has returned, exactly one terminal reply has
been sent: the one chosen after the wait. -/
theorem terminalReplies_of_returned {c : containerServer} {cmd : Option ExecCmd}
    {msg : Option Msg} (env : Env) (h : Launches cmd msg) (sched : List Flow)
    (hret : (execute c cmd msg env sched).returned) (r0 : Runner) :
    terminalReplies (execute c cmd msg env sched).trace =
      [(waitAndReply env (r0.Start (syncFunc env) env.launch)).2] := by
  have hinv := execute_inv c cmd msg env sched
  obtain ⟨r, marked, deferred, hm, hd, heq⟩ := handleExecve_launches (c := c) env h
  have hk : ∀ e ∈ proj .killer (execute c cmd msg env sched).trace,
      isTerminalReply e = false := by
    intro e he
    rcases mem_trace hinv (mem_proj.mp he) with ⟨hf, _⟩ | ⟨_, hmem⟩
    · cases hf
    · rw [heq] at hmem
      exact killFlow_not_terminal _ _ e hmem
  rw [terminalReplies_eq_primary _ hk, proj_primary_of_returned hinv hret, heq]
  simp only
  rw [terminal_of_launched env r marked deferred hm hd, Start_indep r r0]


/-! ## The wait status, arithmetically -/

theorem and_mask (w : Nat) : w &&& WaitStatus.mask = w % 128 :=
  Nat.and_pow_two_sub_one_eq_mod w 7

theorem exit_bits (w : Nat) : (w >>> WaitStatus.shift) &&& 0xFF = w / 256 % 256 := by
  have h := Nat.and_pow_two_sub_one_eq_mod (w >>> WaitStatus.shift) 8
  rw [Nat.shiftRight_eq_div_pow] at h
  rw [Nat.shiftRight_eq_div_pow]
  exact h

theorem Exited_iff (w : Nat) : WaitStatus.Exited w = true ↔ w % 128 = 0 := by
  simp [WaitStatus.Exited, and_mask, WaitStatus.exited]

theorem Signaled_iff (w : Nat) :
    WaitStatus.Signaled w = true ↔ w % 128 ≠ 127 ∧ w % 128 ≠ 0 := by
  simp [WaitStatus.Signaled, and_mask, WaitStatus.exited, WaitStatus.stopped]

/-- The reply for a wait status of a normal exit. -/
theorem classify_exited (w : Nat) (ru : Rusage) (h : w % 128 = 0) :
    classify w ru = .sendReply
      { ExecReply := some
          { Status := .StatusNormal, ExitStatus := ((w / 256 % 256 : Nat) : Int),
            Time := ru.Utime.Nano, Memory := toUint64 (wrap64 (ru.Maxrss * 2 ^ 10)) } }
      none := by
  have he : WaitStatus.Exited w = true := (Exited_iff w).mpr h
  simp [classify, he, WaitStatus.ExitStatus, exit_bits]

/-- The reply for a wait status of a termination by signal. -/
theorem classify_signaled (w : Nat) (ru : Rusage) (h0 : w % 128 ≠ 0) (h127 : w % 128 ≠ 127) :
    classify w ru = .sendReply
      { ExecReply := some
          { Status :=
              if ((w % 128 : Nat) : Int) = SIGXCPU ∨ ((w % 128 : Nat) : Int) = SIGKILL then
                .StatusTimeLimitExceeded
              else if ((w % 128 : Nat) : Int) = SIGXFSZ then .StatusOutputLimitExceeded
              else if ((w % 128 : Nat) : Int) = SIGSYS then .StatusDisallowedSyscall
              else .StatusSignalled,
            ExitStatus := ((w % 128 : Nat) : Int),
            Time := ru.Utime.Nano, Memory := toUint64 (wrap64 (ru.Maxrss * 2 ^ 10)) } }
      none := by
  have he : WaitStatus.Exited w = false := by
    rw [Bool.eq_false_iff]
    intro hc
    exact h0 ((Exited_iff w).mp hc)
  have hs : WaitStatus.Signaled w = true := (Signaled_iff w).mpr ⟨h127, h0⟩
  simp [classify, he, hs, WaitStatus.Signal, and_mask]

/-- The reply for any other wait status. -/
theorem classify_other (w : Nat) (ru : Rusage) (h : w % 128 = 127) :
    classify w ru = .sendErrorReply "execve: unknown status %v" (some (.wstatus w)) := by
  have he : WaitStatus.Exited w = false := by
    rw [Bool.eq_false_iff]
    intro hc
    have := (Exited_iff w).mp hc
    omega
  have hs : WaitStatus.Signaled w = false := by
    rw [Bool.eq_false_iff]
    intro hc
    exact ((Signaled_iff w).mp hc).1 h
  simp [classify, he, hs]

/-- A launch whose child is created, whose handshake is answered with a command other
than kill, and which meets no later error returns the child and no error. -/
theorem Start_ok (r : Runner) (env : Env) (pid : Int) (cmd2 : Cmd)
    (hlaunch : env.launch = .created pid none) (hsend : env.sendHandshake = none)
    (hrecv : env.recvHandshake = .ok cmd2) (hproceed : cmd2.Cmd ≠ cmdKill) :
    (r.Start (syncFunc env) env.launch).pid = pid ∧
      (r.Start (syncFunc env) env.launch).err = none := by
  simp [hlaunch, Runner.Start, syncFunc, hsend, hrecv, hproceed]

/-- A handshake answered with the kill command makes the launch fail. -/
theorem Start_killed (r : Runner) (env : Env) (pid : Int) (later : Option GoError) (cmd2 : Cmd)
    (hlaunch : env.launch = .created pid later) (hsend : env.sendHandshake = none)
    (hrecv : env.recvHandshake = .ok cmd2) (hkill : cmd2.Cmd = cmdKill) :
    (r.Start (syncFunc env) env.launch).err = some (.errorf0 "syncFunc: received kill") := by
  simp [hlaunch, Runner.Start, syncFunc, hsend, hrecv, hkill]


/-! ## Rejected requests and replies carrying a result -/

/-- A request for exec-by-descriptor without a descriptor is rejected before the launch. -/
theorem handleExecve_rejects (c : containerServer) (x : ExecCmd) (msg : Option Msg) (env : Env)
    (hfe : x.FdExec = true) (hmsg : msg = none ∨ ∃ m, msg = some m ∧ m.Fds = []) :
    handleExecve c (some x) msg env =
      { pre := (match msg with
          | some m => [Event.closeOnExecFds m.Fds, Event.closeFds m.Fds]
          | none => []) ++ [.ret (some (.errorf0 "execve: expected fexecve fd"))],
        main := [], kill := [],
        ret := some (.errorf0 "execve: expected fexecve fd") } := by
  rcases hmsg with rfl | ⟨m, rfl, hm⟩
  · simp [handleExecve, hfe]
  · simp [handleExecve, hfe, hm, intSliceToUintptr]

theorem not_launches {cmd : Option ExecCmd} {msg : Option Msg} (h : ¬ Launches cmd msg) :
    cmd = none ∨ ∃ x, cmd = some x ∧ x.FdExec = true ∧
      (msg = none ∨ ∃ m, msg = some m ∧ m.Fds = []) := by
  cases cmd with
  | none => exact Or.inl rfl
  | some x =>
    refine Or.inr ⟨x, rfl, ?_⟩
    by_contra hc
    exact h ⟨x, rfl, hc⟩

/-- A reply carrying an `ExecReply` appears in a trace only as the reply chosen after the
wait of a launched exec cycle. -/
theorem execReply_in_trace {c : containerServer} {cmd : Option ExecCmd} {msg : Option Msg}
    {env : Env} {sched : List Flow} {f : Flow} {rep : ExecReply} {m : Option Msg}
    (h : (f, Event.sendReply { ExecReply := some rep } m) ∈ (execute c cmd msg env sched).trace)
    (r0 : Runner) :
    (waitAndReply env (r0.Start (syncFunc env) env.launch)).2 =
      .sendReply { ExecReply := some rep } m := by
  have hinv := execute_inv c cmd msg env sched
  have hmem := mem_trace hinv h
  by_cases hl : Launches cmd msg
  · obtain ⟨r, marked, deferred, hm, hd, heq⟩ := handleExecve_launches (c := c) env hl
    rw [heq] at hmem
    simp only at hmem
    rcases hmem with ⟨_, hmem⟩ | ⟨_, hmem⟩
    · simp only [primaryFlow, List.mem_append, List.mem_cons, List.mem_singleton,
        List.not_mem_nil, or_false] at hmem
      rcases hmem with ((hmem | hmem) | hmem) | (((hmem | hmem) | hmem) | hmem)
      · obtain ⟨fds, hfds⟩ := hm _ hmem
        cases hfds
      · cases hmem
      · rcases Start_events r env _ _ hmem with ⟨m2, h2⟩ | ⟨r2, h2⟩ <;> cases h2
      · obtain ⟨_, _, h2⟩ := waitAndReply_wait _ _ _ hmem
        cases h2
      · rcases hmem with hmem | hmem | hmem | hmem
        · cases hmem
        · rw [Start_indep r0 r]
          exact hmem.symm
        · cases hmem
        · cases hmem
      · obtain ⟨fds, hfds⟩ := hd _ hmem
        cases hfds
      · cases hmem
    · rcases killFlow_events _ _ _ hmem with h2 | h2 | h2 | ⟨_, _, h2⟩ | h2 <;> cases h2
  · exfalso
    rcases not_launches hl with rfl | ⟨x, rfl, hfe, hmsg⟩
    · simp [handleExecve] at hmem
    · rw [handleExecve_rejects c x msg env hfe hmsg] at hmem
      rcases hmsg with rfl | ⟨m2, rfl, _⟩ <;> simp at hmem


/-- C1: in an exec cycle whose launch succeeds and whose wait succeeds with the wait status
of a normal exit with code `N`, the handler returns under some schedule, and whenever it
has returned the one terminal reply sent is an `ExecReply` with status `Normal` and exit
status `N` (so `0 ≤ N ≤ 255`). -/
theorem handleExecve_normal_exit (c : containerServer) (cmd : Option ExecCmd)
    (msg : Option Msg) (env : Env) (pid : Int) (cmd2 : Cmd) (w N : Nat) (ru : Rusage)
    (hreq : Launches cmd msg)
    (hlaunch : env.launch = .created pid none) (hsend : env.sendHandshake = none)
    (hrecv : env.recvHandshake = .ok cmd2) (hproceed : cmd2.Cmd ≠ cmdKill)
    (hwait : env.wait = .ok w ru) (hexit : w % 128 = 0) (hcode : w / 256 % 256 = N) :
    N ≤ 255 ∧
    (∃ sched, (execute c cmd msg env sched).returned) ∧
    ∀ sched, (execute c cmd msg env sched).returned →
      terminalReplies (execute c cmd msg env sched).trace =
        [.sendReply
          { ExecReply := some
              { Status := .StatusNormal, ExitStatus := (N : Int), Time := ru.Utime.Nano,
                Memory := toUint64 (wrap64 (ru.Maxrss * 2 ^ 10)) } }
          none] := by
  refine ⟨by omega, ?_, ?_⟩
  · obtain ⟨sched, h, _⟩ := handleExecve_returns c cmd msg env
    exact ⟨sched, h⟩
  · intro sched hret
    rw [terminalReplies_of_returned env hreq sched hret emptyRunner]
    have herr := (Start_ok emptyRunner env pid cmd2 hlaunch hsend hrecv hproceed).2
    simp only [waitAndReply, herr, hwait, classify_exited w ru hexit, hcode]

theorem handleExecve_normal_exit_witness :
    (execute sampleServer (some sampleCmd) none envExit sampleSchedule).returned ∧
    terminalReplies (execute sampleServer (some sampleCmd) none envExit sampleSchedule).trace =
      [.sendReply
        { ExecReply := some
            { Status := .StatusNormal, ExitStatus := 3, Time := 1000500000,
              Memory := 2097152 } }
        none] :=
  ⟨by decide,
    (handleExecve_normal_exit sampleServer (some sampleCmd) none envExit 42 { Cmd := "ok" }
      (3 * 256) 3 { Utime := { Sec := 1, Usec := 500 }, Maxrss := 2048 }
      ⟨sampleCmd, rfl, by decide⟩ rfl rfl rfl (by decide) rfl (by decide) (by decide)).2.2
      sampleSchedule (by decide)⟩


/-- C2: in an exec cycle whose launch and wait succeed with the wait status of a
termination by signal `s`, the handler returns under some schedule, and whenever it has
returned the one terminal reply sent is an `ExecReply` whose exit status is `s` and whose
status is `TimeLimitExceeded` for `SIGKILL` and `SIGXCPU`, `OutputLimitExceeded` for
`SIGXFSZ`, `DisallowedSyscall` for `SIGSYS`, and `Signalled` for every other signal. -/
theorem handleExecve_signalled (c : containerServer) (cmd : Option ExecCmd)
    (msg : Option Msg) (env : Env) (pid : Int) (cmd2 : Cmd) (w s : Nat) (ru : Rusage)
    (hreq : Launches cmd msg)
    (hlaunch : env.launch = .created pid none) (hsend : env.sendHandshake = none)
    (hrecv : env.recvHandshake = .ok cmd2) (hproceed : cmd2.Cmd ≠ cmdKill)
    (hwait : env.wait = .ok w ru) (hsig : w % 128 = s) (hpos : 0 < s) (hlt : s < 127) :
    (∃ sched, (execute c cmd msg env sched).returned) ∧
    ∀ sched, (execute c cmd msg env sched).returned →
      ∃ rep : ExecReply,
        terminalReplies (execute c cmd msg env sched).trace =
          [.sendReply { ExecReply := some rep } none] ∧
        rep.ExitStatus = (s : Int) ∧
        (((s : Int) = SIGKILL ∨ (s : Int) = SIGXCPU) → rep.Status = .StatusTimeLimitExceeded) ∧
        ((s : Int) = SIGXFSZ → rep.Status = .StatusOutputLimitExceeded) ∧
        ((s : Int) = SIGSYS → rep.Status = .StatusDisallowedSyscall) ∧
        ((s : Int) ≠ SIGKILL → (s : Int) ≠ SIGXCPU → (s : Int) ≠ SIGXFSZ → (s : Int) ≠ SIGSYS →
          rep.Status = .StatusSignalled) := by
  refine ⟨?_, ?_⟩
  · obtain ⟨sched, h, _⟩ := handleExecve_returns c cmd msg env
    exact ⟨sched, h⟩
  · intro sched hret
    rw [terminalReplies_of_returned env hreq sched hret emptyRunner]
    have herr := (Start_ok emptyRunner env pid cmd2 hlaunch hsend hrecv hproceed).2
    have h0 : w % 128 ≠ 0 := by omega
    have h127 : w % 128 ≠ 127 := by omega
    simp only [waitAndReply, herr, hwait, classify_signaled w ru h0 h127, hsig]
    refine ⟨_, rfl, rfl, ?_, ?_, ?_, ?_⟩
    · intro h
      have h2 : (s : Int) = SIGXCPU ∨ (s : Int) = SIGKILL := h.symm
      simp only [h2, if_true]
    · intro h
      simp [h, SIGXFSZ, SIGXCPU, SIGKILL]
    · intro h
      simp [h, SIGSYS, SIGXFSZ, SIGXCPU, SIGKILL]
    · intro h1 h2 h3 h4
      simp [h1, h2, h3, h4]

theorem handleExecve_signalled_witness :
    (execute sampleServer (some sampleCmd) none envSignal sampleSchedule).returned ∧
    ∃ rep : ExecReply,
      terminalReplies (execute sampleServer (some sampleCmd) none envSignal sampleSchedule).trace
        = [.sendReply { ExecReply := some rep } none] ∧
      rep.ExitStatus = ((24 : Nat) : Int) ∧
      ((((24 : Nat) : Int) = SIGKILL ∨ ((24 : Nat) : Int) = SIGXCPU) →
        rep.Status = .StatusTimeLimitExceeded) ∧
      (((24 : Nat) : Int) = SIGXFSZ → rep.Status = .StatusOutputLimitExceeded) ∧
      (((24 : Nat) : Int) = SIGSYS → rep.Status = .StatusDisallowedSyscall) ∧
      (((24 : Nat) : Int) ≠ SIGKILL → ((24 : Nat) : Int) ≠ SIGXCPU →
        ((24 : Nat) : Int) ≠ SIGXFSZ → ((24 : Nat) : Int) ≠ SIGSYS →
        rep.Status = .StatusSignalled) :=
  ⟨by decide,
    (handleExecve_signalled sampleServer (some sampleCmd) none envSignal 42 { Cmd := "ok" }
      24 24 { Utime := { Sec := 1, Usec := 0 }, Maxrss := 2048 }
      ⟨sampleCmd, rfl, by decide⟩ rfl rfl rfl (by decide) rfl (by decide) (by decide)
      (by decide)).2 sampleSchedule (by decide)⟩

/-- C4: in an exec cycle in which the launcher returns an error (also when the handshake was
answered with the kill command) or the wait on the child fails, the handler returns under
some schedule, whenever it has returned the one terminal reply sent is the error reply
`execve: wait4 %v`, and at no point of any execution has an `ExecReply` been sent. -/
theorem handleExecve_launch_or_wait_error (c : containerServer) (cmd : Option ExecCmd)
    (msg : Option Msg) (env : Env) (r : Runner)
    (hreq : Launches cmd msg)
    (hfail : (∃ e, (r.Start (syncFunc env) env.launch).err = some e) ∨
      (∃ pid later cmd2, env.launch = .created pid later ∧ env.sendHandshake = none ∧
        env.recvHandshake = .ok cmd2 ∧ cmd2.Cmd = cmdKill) ∨
      ((r.Start (syncFunc env) env.launch).err = none ∧ ∃ e, env.wait = .err e)) :
    ∃ err : GoError,
      (∃ sched, (execute c cmd msg env sched).returned) ∧
      (∀ sched, (execute c cmd msg env sched).returned →
        terminalReplies (execute c cmd msg env sched).trace =
          [.sendErrorReply "execve: wait4 %v" (some (.err err))]) ∧
      (∀ sched f rep m,
        (f, Event.sendReply { ExecReply := some rep } m) ∉
          (execute c cmd msg env sched).trace) := by
  have key : ∃ err : GoError, (waitAndReply env (r.Start (syncFunc env) env.launch)).2 =
      .sendErrorReply "execve: wait4 %v" (some (.err err)) := by
    rcases hfail with ⟨e, he⟩ | ⟨pid, later, cmd2, h1, h2, h3, h4⟩ | ⟨he, e, hw⟩
    · exact ⟨e, by simp only [waitAndReply, he]⟩
    · have he := Start_killed r env pid later cmd2 h1 h2 h3 h4
      exact ⟨.errorf0 "syncFunc: received kill", by simp only [waitAndReply, he]⟩
    · exact ⟨.errno e, by simp only [waitAndReply, he, hw]⟩
  obtain ⟨err, herr⟩ := key
  refine ⟨err, ?_, ?_, ?_⟩
  · obtain ⟨sched, h, _⟩ := handleExecve_returns c cmd msg env
    exact ⟨sched, h⟩
  · intro sched hret
    rw [terminalReplies_of_returned env hreq sched hret r, herr]
  · intro sched f rep m hmem
    have h := execReply_in_trace hmem r
    rw [herr] at h
    cases h

theorem handleExecve_launch_or_wait_error_witness :
    ∃ err : GoError,
      (∃ sched, (execute sampleServer (some sampleCmd) none envVeto sched).returned) ∧
      (∀ sched, (execute sampleServer (some sampleCmd) none envVeto sched).returned →
        terminalReplies (execute sampleServer (some sampleCmd) none envVeto sched).trace =
          [.sendErrorReply "execve: wait4 %v" (some (.err err))]) ∧
      (∀ sched f rep m,
        (f, Event.sendReply { ExecReply := some rep } m) ∉
          (execute sampleServer (some sampleCmd) none envVeto sched).trace) :=
  handleExecve_launch_or_wait_error sampleServer (some sampleCmd) none envVeto emptyRunner
    ⟨sampleCmd, rfl, by decide⟩
    (Or.inr (Or.inl ⟨42, none, { Cmd := "kill" }, rfl, rfl, rfl, by decide⟩))


theorem run_idle (sched : List Flow) (c : Config) (hm : c.main = []) (hk : c.kill = []) :
    run sched c = c := by
  induction sched with
  | nil => rfl
  | cons f fs ih =>
    have hs : step f c = c := by
      cases f <;> simp [step, hm, hk]
    simp only [run, hs, ih]

theorem wrap64_eq {x : Int} (h1 : -2 ^ 63 ≤ x) (h2 : x < 2 ^ 63) : wrap64 x = x := by
  unfold wrap64
  rw [Int.emod_eq_of_lt (by omega) (by omega)]
  omega

theorem toUint64_eq {x : Int} (h1 : 0 ≤ x) (h2 : x < 2 ^ 64) : (toUint64 x : Int) = x := by
  unfold toUint64
  rw [Int.emod_eq_of_lt h1 h2]
  exact Int.toNat_of_nonneg h1

/-- The values an `ExecReply` built by `classify` carries for time and memory. -/
theorem classify_usage {w : Nat} {ru : Rusage} {rep : ExecReply} {m : Option Msg}
    (h : classify w ru = .sendReply { ExecReply := some rep } m) :
    rep.Time = ru.Utime.Nano ∧ rep.Memory = toUint64 (wrap64 (ru.Maxrss * 2 ^ 10)) := by
  by_cases h0 : w % 128 = 0
  · rw [classify_exited w ru h0] at h
    injection h with h1 _
    injection h1 with h2
    injection h2 with h3
    subst h3
    exact ⟨rfl, rfl⟩
  · by_cases h127 : w % 128 = 127
    · rw [classify_other w ru h127] at h
      cases h
    · rw [classify_signaled w ru h0 h127] at h
      injection h with h1 _
      injection h1 with h2
      injection h2 with h3
      subst h3
      exact ⟨rfl, rfl⟩

/-- C9: every `ExecReply` sent in an exec cycle, in the normal-exit and in the signalled
branch alike, reports as memory the peak-resident-set counter shifted left by 10 (times
1024, in 64-bit arithmetic) and as time the user CPU time `Sec * 10^9 + Usec * 10^3` (in
64-bit arithmetic); when the raw counters are non-negative and nothing wraps, these are
exactly `1024 * Maxrss` and `Sec * 10^9 + Usec * 10^3`, and both are non-negative. -/
theorem execReply_resource_usage (c : containerServer) (cmd : Option ExecCmd)
    (msg : Option Msg) (env : Env) (sched : List Flow) (f : Flow) (rep : ExecReply)
    (m : Option Msg)
    (h : (f, Event.sendReply { ExecReply := some rep } m) ∈
      (execute c cmd msg env sched).trace) :
    ∃ w ru, env.wait = .ok w ru ∧
      rep.Memory = toUint64 (wrap64 (ru.Maxrss * 1024)) ∧
      rep.Time = wrap64 (wrap64 (ru.Utime.Sec * 10 ^ 9) + wrap64 (ru.Utime.Usec * 10 ^ 3)) ∧
      (0 ≤ ru.Maxrss → ru.Maxrss * 1024 < 2 ^ 63 → 0 ≤ ru.Utime.Sec → 0 ≤ ru.Utime.Usec →
        ru.Utime.Sec * 10 ^ 9 + ru.Utime.Usec * 10 ^ 3 < 2 ^ 63 →
        (rep.Memory : Int) = 1024 * ru.Maxrss ∧
        rep.Time = ru.Utime.Sec * 10 ^ 9 + ru.Utime.Usec * 10 ^ 3 ∧
        0 ≤ (rep.Memory : Int) ∧ 0 ≤ rep.Time) := by
  have h2 := execReply_in_trace h emptyRunner
  unfold waitAndReply at h2
  split at h2
  · cases h2
  · split at h2
    · rename_i w ru hw
      obtain ⟨ht, hmem⟩ := classify_usage h2
      refine ⟨w, ru, hw, ?_, ?_, ?_⟩
      · rw [hmem]; norm_num
      · rw [ht]; simp only [Timeval.Nano]; norm_num
      · intro a1 a2 a3 a4 a5
        have e1 : wrap64 (ru.Maxrss * 2 ^ 10) = ru.Maxrss * 1024 := by
          rw [wrap64_eq (by norm_num; omega) (by norm_num at a2 ⊢; omega)]
          norm_num
        have e2 : wrap64 (ru.Utime.Sec * 1000000000) = ru.Utime.Sec * 1000000000 :=
          wrap64_eq (by norm_num; omega) (by norm_num at a5 ⊢; omega)
        have e3 : wrap64 (ru.Utime.Usec * 1000) = ru.Utime.Usec * 1000 :=
          wrap64_eq (by norm_num; omega) (by norm_num at a5 ⊢; omega)
        have e4 : wrap64 (ru.Utime.Sec * 1000000000 + ru.Utime.Usec * 1000) =
            ru.Utime.Sec * 1000000000 + ru.Utime.Usec * 1000 :=
          wrap64_eq (by norm_num; omega) (by norm_num at a5 ⊢; omega)
        have e5 : (toUint64 (ru.Maxrss * 1024) : Int) = ru.Maxrss * 1024 :=
          toUint64_eq (by omega) (by norm_num at a2 ⊢; omega)
        rw [ht, hmem]
        simp only [Timeval.Nano, e1, e2, e3, e4, e5]
        norm_num
        omega
    · cases h2

theorem execReply_resource_usage_witness :
    (Flow.primary, Event.sendReply
        { ExecReply := some
            { Status := .StatusNormal, ExitStatus := 3, Time := 1000500000,
              Memory := 2097152 } } none) ∈
      (execute sampleServer (some sampleCmd) none envExit sampleSchedule).trace ∧
    ∃ w ru, envExit.wait = .ok w ru ∧
      (2097152 : Nat) = toUint64 (wrap64 (ru.Maxrss * 1024)) ∧
      (1000500000 : Int) =
        wrap64 (wrap64 (ru.Utime.Sec * 10 ^ 9) + wrap64 (ru.Utime.Usec * 10 ^ 3)) ∧
      (0 ≤ ru.Maxrss → ru.Maxrss * 1024 < 2 ^ 63 → 0 ≤ ru.Utime.Sec → 0 ≤ ru.Utime.Usec →
        ru.Utime.Sec * 10 ^ 9 + ru.Utime.Usec * 10 ^ 3 < 2 ^ 63 →
        ((2097152 : Nat) : Int) = 1024 * ru.Maxrss ∧
        (1000500000 : Int) = ru.Utime.Sec * 10 ^ 9 + ru.Utime.Usec * 10 ^ 3 ∧
        0 ≤ ((2097152 : Nat) : Int) ∧ 0 ≤ (1000500000 : Int)) :=
  ⟨by decide,
    execReply_resource_usage sampleServer (some sampleCmd) none envExit sampleSchedule
      .primary
      { Status := .StatusNormal, ExitStatus := 3, Time := 1000500000, Memory := 2097152 }
      none (by decide)⟩

/-- C3: a non-nil request with `FdExec` set and no descriptor (no message, or a message
with an empty descriptor list) makes the handler return the request error
`execve: expected fexecve fd` and never attempt a launch: in every execution the handler
returns that error, the launcher is not started, no `sendReply` (so no handshake message)
is made, and the kill-listening flow is not started and takes no action. -/
theorem handleExecve_fexecve_without_fd (c : containerServer) (x : ExecCmd)
    (msg : Option Msg) (env : Env) (hfe : x.FdExec = true)
    (hmsg : msg = none ∨ ∃ m, msg = some m ∧ m.Fds = []) :
    (handleExecve c (some x) msg env).ret = some (.errorf0 "execve: expected fexecve fd") ∧
    (handleExecve c (some x) msg env).kill = [] ∧
    ∀ sched,
      (Flow.primary, Event.ret (some (.errorf0 "execve: expected fexecve fd"))) ∈
        (execute c (some x) msg env sched).trace ∧
      ∀ f e, (f, e) ∈ (execute c (some x) msg env sched).trace →
        f = .primary ∧ (∀ r, e ≠ .start r) ∧ (∀ r m, e ≠ .sendReply r m) ∧
        (∀ res, e ≠ .recvCmd res) := by
  have hshape := handleExecve_rejects c x msg env hfe hmsg
  refine ⟨by rw [hshape], by rw [hshape], ?_⟩
  intro sched
  have hrun : execute c (some x) msg env sched = (handleExecve c (some x) msg env).init := by
    unfold execute
    exact run_idle sched _ (by rw [hshape]; rfl) (by rw [hshape]; rfl)
  rw [hrun, hshape]
  rcases hmsg with rfl | ⟨m, rfl, hm⟩
  · simp [Flows.init]
  · simp only [Flows.init, hm]
    refine ⟨by simp, ?_⟩
    intro f e he
    simp only [List.cons_append, List.nil_append, List.map_cons, List.map_nil, List.mem_cons,
      Prod.mk.injEq, List.mem_singleton, List.not_mem_nil, or_false] at he
    rcases he with ⟨rfl, rfl⟩ | ⟨rfl, rfl⟩ | ⟨rfl, rfl⟩ <;> simp

theorem handleExecve_fexecve_without_fd_witness :
    (handleExecve sampleServer (some { sampleCmd with FdExec := true })
        (some { Fds := [], Cred := none }) envExit).ret =
      some (.errorf0 "execve: expected fexecve fd") ∧
    (execute sampleServer (some { sampleCmd with FdExec := true })
        (some { Fds := [], Cred := none }) envExit sampleSchedule).trace =
      [(.primary, .closeOnExecFds []), (.primary, .closeFds []),
        (.primary, .ret (some (.errorf0 "execve: expected fexecve fd")))] :=
  ⟨(handleExecve_fexecve_without_fd sampleServer { sampleCmd with FdExec := true }
      (some { Fds := [], Cred := none }) envExit rfl (Or.inr ⟨_, rfl, rfl⟩)).1,
    by decide⟩


/-- C6: the handshake `syncFunc`, called with a child pid, first sends one reply carrying
the credential record with that pid (as an `int32`, which is the pid itself for every pid
in the `int32` range); when the send fails it attempts no receive and returns the
send-failure error; otherwise it receives exactly one command; it returns an error exactly
when the send failed, the receive failed, or the received command is the kill command, and
nil for every other command; the send-failure and the receive-failure error carry
different messages. -/
theorem syncFunc_handshake (env : Env) (pid : Int) :
    (-2 ^ 31 ≤ pid → pid < 2 ^ 31 → toInt32 pid = pid) ∧
    (∀ e, env.sendHandshake = some e →
      syncFunc env pid =
        ([.sendReply { ExecReply := none }
            (some { Fds := [], Cred := some (handshakeCred env pid) })],
          some (.errorf1 "syncFunc: sendReply(%v)" e))) ∧
    (env.sendHandshake = none →
      (syncFunc env pid).1 =
        [.sendReply { ExecReply := none }
            (some { Fds := [], Cred := some (handshakeCred env pid) }),
          .recvCmd env.recvHandshake]) ∧
    (∀ e, env.sendHandshake = none → env.recvHandshake = .err e →
      (syncFunc env pid).2 = some (.errorf1 "syncFunc: recvCmd(%v)" e)) ∧
    ((syncFunc env pid).2 ≠ none ↔
      (env.sendHandshake ≠ none ∨ (∃ e, env.recvHandshake = .err e) ∨
        (∃ cmd2, env.recvHandshake = .ok cmd2 ∧ cmd2.Cmd = cmdKill))) ∧
    (∀ e1 e2 : GoError,
      GoError.errorf1 "syncFunc: sendReply(%v)" e1 ≠ GoError.errorf1 "syncFunc: recvCmd(%v)" e2 ∧
      (GoError.errorf1 "syncFunc: sendReply(%v)" e1).format ≠
        (GoError.errorf1 "syncFunc: recvCmd(%v)" e2).format) := by
  refine ⟨?_, ?_, ?_, ?_, ?_, ?_⟩
  · intro h1 h2
    unfold toInt32
    rw [Int.emod_eq_of_lt (by omega) (by omega)]
    omega
  · intro e he
    simp [syncFunc, he, handshakeCred]
  · intro he
    unfold syncFunc handshakeCred
    simp only [he]
    cases hr : env.recvHandshake with
    | err e => rfl
    | ok cmd2 =>
      simp only
      split <;> rfl
  · intro e he hr
    simp [syncFunc, he, hr]
  · unfold syncFunc
    cases hs : env.sendHandshake with
    | some e => simp
    | none =>
      cases hr : env.recvHandshake with
      | err e => simp
      | ok cmd2 =>
        by_cases hk : cmd2.Cmd = cmdKill
        · simp [hk]
        · simp [hk]
  · intro e1 e2
    refine ⟨?_, ?_⟩
    · intro h
      injection h with h1 _
      exact absurd h1 (by decide)
    · simp only [GoError.format]
      intro h
      injection h with h1
      exact absurd h1 (by decide)

theorem syncFunc_handshake_witness :
    toInt32 42 = 42 ∧
    (syncFunc envExit 42).1 =
      [.sendReply { ExecReply := none }
          (some { Fds := [], Cred := some { Pid := 42, Uid := 0, Gid := 0 } }),
        .recvCmd (.ok { Cmd := "ok" })] ∧
    (syncFunc envExit 42).2 = none ∧
    (syncFunc envVeto 42).2 = some (.errorf0 "syncFunc: received kill") :=
  ⟨(syncFunc_handshake envExit 42).1 (by decide) (by decide),
    (syncFunc_handshake envExit 42).2.2.1 rfl, by decide, by decide⟩

/-- C7, at the failing input: with two zombies pending (`101` and `102`) the reap loop of
the handler makes one call, reaps `101` and stops, where the loop the specification
describes calls three times and reaps both. -/
theorem reapLoop_stops_after_first_zombie :
    reapLoop [{ pid := 101, err := none }, { pid := 102, err := none }, { pid := 0, err := none }]
      = [.wait4 (-1) WNOHANG 101 none] ∧
    reapLoopSpec
        [{ pid := 101, err := none }, { pid := 102, err := none }, { pid := 0, err := none }]
      = [.wait4 (-1) WNOHANG 101 none, .wait4 (-1) WNOHANG 102 none,
          .wait4 (-1) WNOHANG 0 none] := by
  constructor <;> decide

/-- The reap loop calls again only after a call that returned both a positive pid and
`EINTR`; after any other first outcome, a reaped zombie included, it makes no second
call. -/
theorem reapLoop_single_call (o : WaitOutcome) (rest : List WaitOutcome)
    (h : o.err ≠ some EINTR ∨ o.pid ≤ 0) :
    reapLoop (o :: rest) = [.wait4 (-1) WNOHANG o.pid o.err] := by
  rcases h with h | h <;> simp [reapLoop, h]

/-- C5, at the failing input: for the request `FdExec = true` without a message the handler
returns the error `execve: expected fexecve fd`, and in no execution is any terminal reply
sent. -/
theorem fexecve_without_fd_sends_no_reply (sched : List Flow) :
    (handleExecve sampleServer (some { sampleCmd with FdExec := true }) none envExit).ret =
      some (.errorf0 "execve: expected fexecve fd") ∧
    (execute sampleServer (some { sampleCmd with FdExec := true }) none envExit sched).returned ∧
    terminalReplies
      (execute sampleServer (some { sampleCmd with FdExec := true }) none envExit sched).trace
      = [] := by
  have hrun : execute sampleServer (some { sampleCmd with FdExec := true }) none envExit sched =
      (handleExecve sampleServer (some { sampleCmd with FdExec := true }) none envExit).init := by
    unfold execute
    exact run_idle sched _ rfl rfl
  rw [hrun]
  decide

/-- On every path other than exec-by-descriptor without a descriptor, once the handler has
returned exactly one terminal reply has been sent. -/
theorem one_terminal_reply_otherwise (c : containerServer) (cmd : Option ExecCmd)
    (msg : Option Msg) (env : Env) (sched : List Flow)
    (h : cmd = none ∨ Launches cmd msg) (hret : (execute c cmd msg env sched).returned) :
    (terminalReplies (execute c cmd msg env sched).trace).length = 1 := by
  rcases h with rfl | h
  · have hrun : execute c none msg env sched = (handleExecve c none msg env).init := by
      unfold execute
      exact run_idle sched _ rfl rfl
    rw [hrun]
    rfl
  · rw [terminalReplies_of_returned env h sched hret emptyRunner]
    rfl


/-! ## Program order of the two flows -/

theorem Precedes.cons_of_p {α : Type} {p q : α → Prop} {a : α} {l : List α}
    (hq : ¬ q a) (hp : p a) : Precedes p q (a :: l) := by
  intro pre x post heq hx
  cases pre with
  | nil =>
    simp only [List.nil_append, List.cons.injEq] at heq
    obtain ⟨rfl, _⟩ := heq
    exact absurd hx hq
  | cons b t =>
    simp only [List.cons_append, List.cons.injEq] at heq
    obtain ⟨rfl, _⟩ := heq
    exact ⟨a, by simp, hp⟩

theorem Precedes.cons_skip {α : Type} {p q : α → Prop} {a : α} {l : List α}
    (hq : ¬ q a) (h : Precedes p q l) : Precedes p q (a :: l) := by
  intro pre x post heq hx
  cases pre with
  | nil =>
    simp only [List.nil_append, List.cons.injEq] at heq
    obtain ⟨rfl, _⟩ := heq
    exact absurd hx hq
  | cons b t =>
    simp only [List.cons_append, List.cons.injEq] at heq
    obtain ⟨rfl, h2⟩ := heq
    obtain ⟨y, hy, hpy⟩ := h t x post h2 hx
    exact ⟨y, List.mem_cons_of_mem _ hy, hpy⟩

theorem Precedes.append_skip {α : Type} {p q : α → Prop} {l1 l2 : List α}
    (h1 : ∀ a ∈ l1, ¬ q a) (h : Precedes p q l2) : Precedes p q (l1 ++ l2) := by
  induction l1 with
  | nil => exact h
  | cons a t ih =>
    exact Precedes.cons_skip (h1 a (by simp))
      (ih (fun b hb => h1 b (List.mem_cons_of_mem _ hb)))

theorem Precedes.mono_mem {α : Type} {p q r s : α → Prop} {l : List α}
    (h : Precedes p q l) (hp : ∀ x ∈ l, p x → r x) (hq : ∀ x ∈ l, s x → q x) :
    Precedes r s l := by
  intro pre x post heq hx
  have hxl : x ∈ l := by rw [heq]; simp
  obtain ⟨y, hy, hpy⟩ := h pre x post heq (hq x hxl hx)
  have hyl : y ∈ l := by rw [heq]; exact List.mem_append_left _ hy
  exact ⟨y, hy, hp y hyl hpy⟩

theorem NeverAfter.of_split {α : Type} {p q : α → Prop} {l1 l2 : List α}
    (h1 : ∀ a ∈ l1, ¬ p a) (h2 : ∀ b ∈ l2, ¬ q b) : NeverAfter p q (l1 ++ l2) := by
  intro pre x post heq hx y hy hpy
  rcases List.append_eq_append_iff.mp heq with ⟨a, _, hb⟩ | ⟨c, hc, hd⟩
  · exact h2 x (by rw [hb]; simp) hx
  · cases c with
    | nil =>
      simp only [List.nil_append] at hd
      exact h2 x (by rw [← hd]; simp) hx
    | cons z t =>
      simp only [List.cons_append] at hd
      injection hd with hz ht
      subst hz
      exact h1 y (by rw [hc]; exact List.mem_append_left _ hy) hpy

theorem NeverAfter.weaken_mem {α : Type} {p q r s : α → Prop} {l : List α}
    (h : NeverAfter p q l) (hp : ∀ x ∈ l, r x → p x) (hq : ∀ x ∈ l, s x → q x) :
    NeverAfter r s l := by
  intro pre x post heq hx y hy hry
  have hxl : x ∈ l := by rw [heq]; simp
  have hyl : y ∈ l := by rw [heq]; exact List.mem_append_left _ hy
  exact h pre x post heq (hq x hxl hx) y hy (hp y hyl hry)


/-- In the kill-listening flow the kill signal comes before every reaping wait and before
the close of `killDone`. -/
theorem killFlow_kill_first (rk : RecvResult) (reap : List WaitOutcome) :
    Precedes (fun e => e = Event.kill (-1) SIGKILL)
      (fun e => isWait e ∨ e = Event.close .killDone) (killFlow rk reap) := by
  unfold killFlow
  simp only [List.cons_append, List.nil_append]
  refine Precedes.cons_skip ?_ (Precedes.cons_of_p ?_ rfl)
  · rintro (h | h)
    · exact h
    · cases h
  · rintro (h | h)
    · exact h
    · cases h

/-- In the kill-listening flow the receive on `waitDone` comes before every reaping wait. -/
theorem killFlow_waitDone_first (rk : RecvResult) (reap : List WaitOutcome) :
    Precedes (fun e => e = Event.recv .waitDone) isWait (killFlow rk reap) := by
  unfold killFlow
  simp only [List.cons_append, List.nil_append]
  exact Precedes.cons_skip (fun h => h) (Precedes.cons_skip (fun h => h)
    (Precedes.cons_of_p (fun h => h) rfl))

/-- The actions of the handler before the `go` statement of a launched exec cycle. -/
theorem pre_events (env : Env) (r : Runner) (marked : List Event)
    (hm : ∀ e ∈ marked, ∃ fds, e = Event.closeOnExecFds fds) :
    ∀ e ∈ marked ++ [Event.start r] ++ (r.Start (syncFunc env) env.launch).events,
      (∃ fds, e = .closeOnExecFds fds) ∨ (∃ r2, e = .start r2) ∨
      (∃ m, e = .sendReply { ExecReply := none } (some m)) ∨ (∃ r2, e = .recvCmd r2) := by
  intro e he
  simp only [List.mem_append, List.mem_singleton] at he
  rcases he with (he | he) | he
  · exact Or.inl (hm e he)
  · exact Or.inr (Or.inl ⟨r, he⟩)
  · rcases Start_events r env _ e he with h | h
    · exact Or.inr (Or.inr (Or.inl h))
    · exact Or.inr (Or.inr (Or.inr h))

/-- The reply chosen after the wait is no channel action, no wait, no return and not the
closing empty reply. -/
theorem waitAndReply_reply (env : Env) (st : StartResult) :
    ¬ isWait (waitAndReply env st).2 ∧ ¬ isReturn (waitAndReply env st).2 ∧
    (∀ ch, (waitAndReply env st).2 ≠ .close ch) ∧ (∀ ch, (waitAndReply env st).2 ≠ .recv ch) ∧
    (waitAndReply env st).2 ≠ .sendReply { ExecReply := none } none := by
  have h := waitAndReply_terminal env st
  generalize (waitAndReply env st).2 = e at h
  cases e <;> simp [isTerminalReply] at h <;> simp [isWait, isReturn]
  intro hc
  rw [hc] at h
  simp at h

/-- Program order of the primary flow: when the launch returned no error, the wait on the
child comes before the close of `waitDone`. -/
theorem primary_wait_first (env : Env) (r : Runner) (marked deferred : List Event)
    (hm : ∀ e ∈ marked, ∃ fds, e = Event.closeOnExecFds fds)
    (herr : (r.Start (syncFunc env) env.launch).err = none) :
    Precedes isWait (fun e => e = Event.close .waitDone)
      ((marked ++ [Event.start r] ++ (r.Start (syncFunc env) env.launch).events) ++
        primaryFlow env (r.Start (syncFunc env) env.launch) deferred) := by
  refine Precedes.append_skip ?_ ?_
  · intro e he hc
    rcases pre_events env r marked hm e he with ⟨_, h⟩ | ⟨_, h⟩ | ⟨_, h⟩ | ⟨_, h⟩ <;>
      rw [h] at hc <;> cases hc
  · have hw : ∃ wpid werr, (waitAndReply env (r.Start (syncFunc env) env.launch)).1 =
        [.wait4 (r.Start (syncFunc env) env.launch).pid 0 wpid werr] := by
      unfold waitAndReply
      rw [herr]
      cases env.wait with
      | ok w ru => exact ⟨_, _, rfl⟩
      | err e => exact ⟨_, _, rfl⟩
    obtain ⟨wpid, werr, hw⟩ := hw
    unfold primaryFlow
    rw [hw]
    simp only [List.cons_append, List.nil_append]
    exact Precedes.cons_of_p (fun hc => by cases hc) trivial

/-- Program order of the primary flow: no wait comes after the close of `waitDone`. -/
theorem primary_no_wait_after (env : Env) (r : Runner) (marked deferred : List Event)
    (hm : ∀ e ∈ marked, ∃ fds, e = Event.closeOnExecFds fds)
    (hd : ∀ e ∈ deferred, ∃ fds, e = Event.closeFds fds) :
    NeverAfter (fun e => e = Event.close .waitDone) isWait
      ((marked ++ [Event.start r] ++ (r.Start (syncFunc env) env.launch).events) ++
        primaryFlow env (r.Start (syncFunc env) env.launch) deferred) := by
  have hsplit : ((marked ++ [Event.start r] ++ (r.Start (syncFunc env) env.launch).events) ++
        primaryFlow env (r.Start (syncFunc env) env.launch) deferred) =
      ((marked ++ [Event.start r] ++ (r.Start (syncFunc env) env.launch).events) ++
        (waitAndReply env (r.Start (syncFunc env) env.launch)).1) ++
      ([.close .waitDone, (waitAndReply env (r.Start (syncFunc env) env.launch)).2,
        .recv .killDone, .sendReply { ExecReply := none } none] ++ deferred ++
        [.ret env.sendFinal]) := by
    simp [primaryFlow]
  rw [hsplit]
  refine NeverAfter.of_split ?_ ?_
  · intro e he hc
    rcases List.mem_append.mp he with he | he
    · rcases pre_events env r marked hm e he with ⟨_, h⟩ | ⟨_, h⟩ | ⟨_, h⟩ | ⟨_, h⟩ <;>
        rw [h] at hc <;> cases hc
    · obtain ⟨_, _, h⟩ := waitAndReply_wait _ _ e he
      rw [h] at hc
      cases hc
  · intro e he hc
    simp only [List.mem_append, List.mem_cons, List.mem_singleton, List.not_mem_nil,
      or_false] at he
    rcases he with ((he | he | he | he) | he) | he
    · rw [he] at hc; exact hc
    · rw [he] at hc; exact (waitAndReply_reply env _).1 hc
    · rw [he] at hc; exact hc
    · rw [he] at hc; exact hc
    · obtain ⟨_, h⟩ := hd e he
      rw [h] at hc; exact hc
    · rw [he] at hc; exact hc

/-- Program order of the primary flow: the receive on `killDone` comes before the closing
empty reply and before the return. -/
theorem primary_killDone_first (env : Env) (r : Runner) (marked deferred : List Event)
    (hm : ∀ e ∈ marked, ∃ fds, e = Event.closeOnExecFds fds) :
    Precedes (fun e => e = Event.recv .killDone)
      (fun e => e = Event.sendReply { ExecReply := none } none ∨ isReturn e)
      ((marked ++ [Event.start r] ++ (r.Start (syncFunc env) env.launch).events) ++
        primaryFlow env (r.Start (syncFunc env) env.launch) deferred) := by
  refine Precedes.append_skip ?_ ?_
  · intro e he hc
    rcases pre_events env r marked hm e he with ⟨_, h⟩ | ⟨_, h⟩ | ⟨_, h⟩ | ⟨_, h⟩ <;>
      rw [h] at hc <;> rcases hc with hc | hc <;> cases hc
  · unfold primaryFlow
    simp only [List.append_assoc]
    refine Precedes.append_skip ?_ ?_
    · intro e he hc
      obtain ⟨_, _, h⟩ := waitAndReply_wait _ _ e he
      rw [h] at hc
      rcases hc with hc | hc
      · cases hc
      · exact hc
    · simp only [List.cons_append, List.nil_append]
      refine Precedes.cons_skip ?_ (Precedes.cons_skip ?_ (Precedes.cons_of_p ?_ rfl))
      · rintro (hc | hc)
        · cases hc
        · exact hc
      · rintro (hc | hc)
        · exact (waitAndReply_reply env _).2.2.2.2 hc
        · exact (waitAndReply_reply env _).2.1 hc
      · rintro (hc | hc)
        · cases hc
        · exact hc


/-! ## Ordering in the traces of a launched exec cycle -/

/-- What the primary flow has done so far is an initial part of its program. -/
theorem proj_primary_initial {fl : Flows} {c : Config} (hinv : Inv fl c) :
    ∃ rest, fl.pre ++ fl.main = proj .primary c.trace ++ rest := by
  obtain ⟨md, hmd, hpm⟩ := hinv.main_split
  exact ⟨c.main, by rw [hpm, ← hmd, List.append_assoc]⟩

/-- What the kill-listening flow has done so far is an initial part of its program. -/
theorem proj_killer_initial {fl : Flows} {c : Config} (hinv : Inv fl c) :
    ∃ rest, fl.kill = proj .killer c.trace ++ rest := by
  obtain ⟨kd, hkd, hpk⟩ := hinv.kill_split
  exact ⟨c.kill, by rw [hpk, hkd]⟩

/-- Only the primary flow closes `waitDone`. -/
theorem close_waitDone_primary {c : containerServer} {cmd : Option ExecCmd} {msg : Option Msg}
    {env : Env} {sched : List Flow} (hreq : Launches cmd msg) {x : Flow × Event}
    (hx : x ∈ (execute c cmd msg env sched).trace) (h : x.2 = .close .waitDone) :
    x = (.primary, .close .waitDone) := by
  obtain ⟨f, e⟩ := x
  simp only at h
  subst h
  obtain ⟨r, marked, deferred, _, _, heq⟩ := handleExecve_launches (c := c) env hreq
  rcases mem_trace (execute_inv c cmd msg env sched) hx with ⟨hf, _⟩ | ⟨_, hmem⟩
  · rw [hf]
  · rw [heq] at hmem
    rcases killFlow_events _ _ _ hmem with h2 | h2 | h2 | ⟨_, _, h2⟩ | h2 <;> cases h2

/-- Only the kill-listening flow closes `killDone`. -/
theorem close_killDone_killer {c : containerServer} {cmd : Option ExecCmd} {msg : Option Msg}
    {env : Env} {sched : List Flow} (hreq : Launches cmd msg) {x : Flow × Event}
    (hx : x ∈ (execute c cmd msg env sched).trace) (h : x.2 = .close .killDone) :
    x = (.killer, .close .killDone) := by
  obtain ⟨f, e⟩ := x
  simp only at h
  subst h
  obtain ⟨r, marked, deferred, hm, hd, heq⟩ := handleExecve_launches (c := c) env hreq
  rcases mem_trace (execute_inv c cmd msg env sched) hx with ⟨_, hmem⟩ | ⟨hf, _⟩
  · exfalso
    rw [heq] at hmem
    simp only at hmem
    rcases List.mem_append.mp hmem with hmem | hmem
    · rcases pre_events env r marked hm _ hmem with ⟨_, h⟩ | ⟨_, h⟩ | ⟨_, h⟩ | ⟨_, h⟩ <;>
        cases h
    · simp only [primaryFlow, List.mem_append, List.mem_cons, List.mem_singleton,
        List.not_mem_nil, or_false] at hmem
      rcases hmem with ((hmem | hmem | hmem | hmem | hmem) | hmem) | hmem
      · obtain ⟨_, _, h⟩ := waitAndReply_wait _ _ _ hmem
        cases h
      · cases hmem
      · exact (waitAndReply_reply env _).2.2.1 _ hmem.symm
      · cases hmem
      · cases hmem
      · obtain ⟨_, h⟩ := hd _ hmem
        cases h
      · cases hmem
  · rw [hf]

/-- In every execution the kill signal is sent before any reaping wait and before
`killDone` is closed. -/
theorem trace_kill_first {c : containerServer} {cmd : Option ExecCmd} {msg : Option Msg}
    (env : Env) (hreq : Launches cmd msg) (sched : List Flow) :
    Precedes (fun x => x = (Flow.killer, Event.kill (-1) SIGKILL))
      (fun x => x.1 = Flow.killer ∧ (isWait x.2 ∨ x.2 = .close .killDone))
      (execute c cmd msg env sched).trace := by
  have hinv := execute_inv c cmd msg env sched
  obtain ⟨r, marked, deferred, _, _, heq⟩ := handleExecve_launches (c := c) env hreq
  obtain ⟨rest, hrest⟩ := proj_killer_initial hinv
  have h1 := killFlow_kill_first env.recvKill env.reap
  have h2 : (handleExecve c cmd msg env).kill = killFlow env.recvKill env.reap := by rw [heq]
  rw [← h2, hrest] at h1
  refine (Precedes.of_proj h1.of_append).mono ?_ (fun x hx => hx)
  rintro ⟨f, e⟩ ⟨hf, he⟩
  simp only at hf he
  rw [hf, he]

/-- In every execution `waitDone` is closed by the primary flow before any reaping wait. -/
theorem trace_waitDone_first {c : containerServer} {cmd : Option ExecCmd} {msg : Option Msg}
    (env : Env) (hreq : Launches cmd msg) (sched : List Flow) :
    Precedes (fun x => x = (Flow.primary, Event.close .waitDone))
      (fun x => x.1 = Flow.killer ∧ isWait x.2) (execute c cmd msg env sched).trace := by
  have hinv := execute_inv c cmd msg env sched
  obtain ⟨r, marked, deferred, _, _, heq⟩ := handleExecve_launches (c := c) env hreq
  obtain ⟨rest, hrest⟩ := proj_killer_initial hinv
  have h1 := killFlow_waitDone_first env.recvKill env.reap
  have h2 : (handleExecve c cmd msg env).kill = killFlow env.recvKill env.reap := by rw [heq]
  rw [← h2, hrest] at h1
  have h3 := Precedes.of_proj h1.of_append
  have h4 : Precedes (fun x => x = (Flow.primary, Event.close .waitDone))
      (fun x : Flow × Event => x.1 = Flow.killer ∧ x.2 = Event.recv .waitDone)
      (execute c cmd msg env sched).trace :=
    (hinv.chan_ok .waitDone).mono_mem (fun x hx h => close_waitDone_primary hreq hx h)
      (fun x _ h => h.2)
  exact h4.trans h3

/-- In every execution `killDone` is closed by the kill-listening flow before the closing
empty reply is sent and before the handler returns. -/
theorem trace_killDone_first {c : containerServer} {cmd : Option ExecCmd} {msg : Option Msg}
    (env : Env) (hreq : Launches cmd msg) (sched : List Flow) :
    Precedes (fun x => x = (Flow.killer, Event.close .killDone))
      (fun x => x.1 = Flow.primary ∧
        (x.2 = Event.sendReply { ExecReply := none } none ∨ isReturn x.2))
      (execute c cmd msg env sched).trace := by
  have hinv := execute_inv c cmd msg env sched
  obtain ⟨r, marked, deferred, hm, _, heq⟩ := handleExecve_launches (c := c) env hreq
  obtain ⟨rest, hrest⟩ := proj_primary_initial hinv
  have h1 := primary_killDone_first env r marked deferred hm
  have h2 : (handleExecve c cmd msg env).pre ++ (handleExecve c cmd msg env).main =
      (marked ++ [Event.start r] ++ (r.Start (syncFunc env) env.launch).events) ++
        primaryFlow env (r.Start (syncFunc env) env.launch) deferred := by rw [heq]
  rw [← h2, hrest] at h1
  have h3 := Precedes.of_proj h1.of_append
  have h4 : Precedes (fun x => x = (Flow.killer, Event.close .killDone))
      (fun x : Flow × Event => x.1 = Flow.primary ∧ x.2 = Event.recv .killDone)
      (execute c cmd msg env sched).trace :=
    (hinv.chan_ok .killDone).mono_mem (fun x hx h => close_killDone_killer hreq hx h)
      (fun x _ h => h.2)
  exact h4.trans h3

/-- In every execution of a cycle whose launch returned no error, the wait on the child
has been made before `waitDone` is closed. -/
theorem trace_wait_first {c : containerServer} {cmd : Option ExecCmd} {msg : Option Msg}
    (env : Env) (hreq : Launches cmd msg) (sched : List Flow)
    (herr : ∀ r : Runner, (r.Start (syncFunc env) env.launch).err = none) :
    Precedes (fun x => x.1 = Flow.primary ∧ isWait x.2)
      (fun x => x.2 = Event.close .waitDone) (execute c cmd msg env sched).trace := by
  have hinv := execute_inv c cmd msg env sched
  obtain ⟨r, marked, deferred, hm, _, heq⟩ := handleExecve_launches (c := c) env hreq
  obtain ⟨rest, hrest⟩ := proj_primary_initial hinv
  have h1 := primary_wait_first env r marked deferred hm (herr r)
  have h2 : (handleExecve c cmd msg env).pre ++ (handleExecve c cmd msg env).main =
      (marked ++ [Event.start r] ++ (r.Start (syncFunc env) env.launch).events) ++
        primaryFlow env (r.Start (syncFunc env) env.launch) deferred := by rw [heq]
  rw [← h2, hrest] at h1
  refine (Precedes.of_proj h1.of_append).mono_mem (fun x _ h => h) ?_
  intro x hx h
  have := close_waitDone_primary hreq hx h
  rw [this]
  exact ⟨rfl, rfl⟩

/-- In every execution no wait on the child is made after `waitDone` is closed. -/
theorem trace_no_wait_after {c : containerServer} {cmd : Option ExecCmd} {msg : Option Msg}
    (env : Env) (hreq : Launches cmd msg) (sched : List Flow) :
    NeverAfter (fun x => x.2 = Event.close .waitDone)
      (fun x => x.1 = Flow.primary ∧ isWait x.2) (execute c cmd msg env sched).trace := by
  have hinv := execute_inv c cmd msg env sched
  obtain ⟨r, marked, deferred, hm, hd, heq⟩ := handleExecve_launches (c := c) env hreq
  obtain ⟨rest, hrest⟩ := proj_primary_initial hinv
  have h1 := primary_no_wait_after env r marked deferred hm hd
  have h2 : (handleExecve c cmd msg env).pre ++ (handleExecve c cmd msg env).main =
      (marked ++ [Event.start r] ++ (r.Start (syncFunc env) env.launch).events) ++
        primaryFlow env (r.Start (syncFunc env) env.launch) deferred := by rw [heq]
  rw [← h2, hrest] at h1
  refine (NeverAfter.via_proj h1.initial).weaken_mem ?_ (fun x _ h => h)
  intro x hx h
  have := close_waitDone_primary hreq hx h
  rw [this]
  exact ⟨rfl, rfl⟩


/-- Once the handler of a launched exec cycle has returned, `killDone` has been closed. -/
theorem killDone_closed_of_returned {c : containerServer} {cmd : Option ExecCmd}
    {msg : Option Msg} (env : Env) (hreq : Launches cmd msg) (sched : List Flow)
    (hret : (execute c cmd msg env sched).returned) :
    (Flow.killer, Event.close .killDone) ∈ (execute c cmd msg env sched).trace := by
  have hinv := execute_inv c cmd msg env sched
  obtain ⟨r, marked, deferred, _, _, heq⟩ := handleExecve_launches (c := c) env hreq
  have hp := proj_primary_of_returned hinv hret
  have hmem : Event.recv .killDone ∈ proj .primary (execute c cmd msg env sched).trace := by
    rw [hp, heq]
    simp [primaryFlow]
  obtain ⟨pre, post, hsplit⟩ := List.append_of_mem (mem_proj.mp hmem)
  obtain ⟨y, hy, hcl⟩ := hinv.chan_ok .killDone pre _ post hsplit rfl
  have hyt : y ∈ (execute c cmd msg env sched).trace := by
    rw [hsplit]; exact List.mem_append_left _ hy
  rw [← close_killDone_killer hreq hyt hcl]
  exact hyt

/-- The handler of a launched exec cycle returns only after the kill-listening flow has
run to its end: the trace then shows the whole program of that flow. -/
theorem killer_finished_of_returned {c : containerServer} {cmd : Option ExecCmd}
    {msg : Option Msg} (env : Env) (hreq : Launches cmd msg) (sched : List Flow)
    (hret : (execute c cmd msg env sched).returned) :
    (execute c cmd msg env sched).kill = [] ∧
    proj .killer (execute c cmd msg env sched).trace = killFlow env.recvKill env.reap := by
  have hinv := execute_inv c cmd msg env sched
  obtain ⟨r, marked, deferred, _, _, heq⟩ := handleExecve_launches (c := c) env hreq
  obtain ⟨kd, hkd, hpk⟩ := hinv.kill_split
  have hK : (handleExecve c cmd msg env).kill = killFlow env.recvKill env.reap := by rw [heq]
  rw [hK] at hkd
  have hcl : Event.close .killDone ∈ kd := by
    rw [← hpk]
    exact mem_proj.mpr (killDone_closed_of_returned env hreq sched hret)
  have hnil : (execute c cmd msg env sched).kill = [] := by
    rcases List.eq_nil_or_concat (execute c cmd msg env sched).kill with h | ⟨rest, z, h⟩
    · exact h
    · exfalso
      rw [h, List.concat_eq_append] at hkd
      have h2 : (kd ++ rest) ++ [z] =
          ([Event.recvCmd env.recvKill, .kill (-1) SIGKILL, .recv .waitDone] ++
            reapLoop env.reap) ++ [.close .killDone] := by
        rw [List.append_assoc]; exact hkd
      obtain ⟨h3, _⟩ := List.append_inj' h2 rfl
      have h4 : Event.close .killDone ∈
          [Event.recvCmd env.recvKill, .kill (-1) SIGKILL, .recv .waitDone] ++
            reapLoop env.reap := by
        rw [← h3]; exact List.mem_append_left _ hcl
      simp only [List.mem_append, List.mem_cons, List.mem_singleton, List.not_mem_nil,
        or_false] at h4
      rcases h4 with (h4 | h4 | h4) | h4
      · cases h4
      · cases h4
      · cases h4
      · obtain ⟨_, _, h5⟩ := reapLoop_events _ _ h4
        cases h5
  refine ⟨hnil, ?_⟩
  rw [hnil, List.append_nil] at hkd
  rw [hpk, hkd]

/-- C8, counterexample: the receive of the kill-listening flow fails (the IPC channel is
closed), and the flow has sent the kill signal to every process all the same. -/
theorem kill_sent_although_receive_failed :
    envClosed.recvKill = .err (.ext "EOF") ∧
    (Flow.killer, Event.recvCmd (.err (.ext "EOF"))) ∈
      (execute sampleServer (some sampleCmd) none envClosed sampleSchedule).trace ∧
    (Flow.killer, Event.kill (-1) SIGKILL) ∈
      (execute sampleServer (some sampleCmd) none envClosed sampleSchedule).trace := by
  decide

/-- C8, as amended: when the receive of the kill-listening flow returns an error, the flow
goes on exactly as after a received command: once the handler has returned (which it does
under some schedule), the flow has sent the kill signal `SIGKILL` to `-1`, waited for
`waitDone`, run the reap loop and closed `killDone`. -/
theorem kill_flow_after_failed_receive (c : containerServer) (cmd : Option ExecCmd)
    (msg : Option Msg) (env : Env) (e : GoError) (hreq : Launches cmd msg)
    (hrecv : env.recvKill = .err e) :
    (∃ sched, (execute c cmd msg env sched).returned) ∧
    ∀ sched, (execute c cmd msg env sched).returned →
      proj .killer (execute c cmd msg env sched).trace =
        .recvCmd (.err e) :: .kill (-1) SIGKILL :: .recv .waitDone ::
          (reapLoop env.reap ++ [.close .killDone]) := by
  refine ⟨?_, ?_⟩
  · obtain ⟨sched, h, _⟩ := handleExecve_returns c cmd msg env
    exact ⟨sched, h⟩
  · intro sched hret
    rw [(killer_finished_of_returned env hreq sched hret).2, hrecv]
    simp [killFlow]

theorem kill_flow_after_failed_receive_witness :
    (execute sampleServer (some sampleCmd) none envClosed sampleSchedule).returned ∧
    proj .killer (execute sampleServer (some sampleCmd) none envClosed sampleSchedule).trace =
      [.recvCmd (.err (.ext "EOF")), .kill (-1) SIGKILL, .recv .waitDone,
        .wait4 (-1) WNOHANG 101 none, .close .killDone] :=
  ⟨by decide,
    (kill_flow_after_failed_receive sampleServer (some sampleCmd) none envClosed (.ext "EOF")
      ⟨sampleCmd, rfl, by decide⟩ rfl).2 sampleSchedule (by decide)⟩

/-- Program order of the primary flow: `waitDone` is closed before the reply that carries
the result or the error is sent. -/
theorem primary_waitDone_before_reply (env : Env) (r : Runner) (marked deferred : List Event)
    (hm : ∀ e ∈ marked, ∃ fds, e = Event.closeOnExecFds fds) :
    Precedes (fun e => e = Event.close .waitDone) (fun e => isTerminalReply e = true)
      ((marked ++ [Event.start r] ++ (r.Start (syncFunc env) env.launch).events) ++
        primaryFlow env (r.Start (syncFunc env) env.launch) deferred) := by
  refine Precedes.append_skip ?_ ?_
  · intro e he hc
    rcases pre_events env r marked hm e he with ⟨_, h⟩ | ⟨_, h⟩ | ⟨_, h⟩ | ⟨_, h⟩ <;>
      rw [h] at hc <;> simp [isTerminalReply] at hc
  · unfold primaryFlow
    simp only [List.append_assoc]
    refine Precedes.append_skip ?_ ?_
    · intro e he hc
      obtain ⟨_, _, h⟩ := waitAndReply_wait _ _ e he
      rw [h] at hc
      simp [isTerminalReply] at hc
    · simp only [List.cons_append, List.nil_append]
      exact Precedes.cons_of_p (by simp [isTerminalReply]) rfl

/-- In every execution `waitDone` is closed before the reply that carries the result or the
error is sent. -/
theorem trace_waitDone_before_reply {c : containerServer} {cmd : Option ExecCmd}
    {msg : Option Msg} (env : Env) (hreq : Launches cmd msg) (sched : List Flow) :
    Precedes (fun x => x = (Flow.primary, Event.close .waitDone))
      (fun x : Flow × Event => isTerminalReply x.2 = true)
      (execute c cmd msg env sched).trace := by
  have hinv := execute_inv c cmd msg env sched
  obtain ⟨r, marked, deferred, hm, _, heq⟩ := handleExecve_launches (c := c) env hreq
  obtain ⟨rest, hrest⟩ := proj_primary_initial hinv
  have h1 := primary_waitDone_before_reply env r marked deferred hm
  have h2 : (handleExecve c cmd msg env).pre ++ (handleExecve c cmd msg env).main =
      (marked ++ [Event.start r] ++ (r.Start (syncFunc env) env.launch).events) ++
        primaryFlow env (r.Start (syncFunc env) env.launch) deferred := by rw [heq]
  rw [← h2, hrest] at h1
  refine (Precedes.of_proj h1.of_append).mono_mem ?_ ?_
  · rintro ⟨f, e⟩ _ ⟨hf, he⟩
    simp only at hf he
    rw [hf, he]
  · rintro ⟨f, e⟩ hx hterm
    simp only at hterm
    refine ⟨?_, hterm⟩
    rcases mem_trace hinv hx with ⟨hf, _⟩ | ⟨_, hmem⟩
    · exact hf
    · exfalso
      rw [heq] at hmem
      have := killFlow_not_terminal _ _ e hmem
      rw [this] at hterm
      cases hterm

/-- The reply that carries the result or the error does not wait for `killDone`: under the
schedule that runs the primary flow alone up to that reply, the reply has been sent and the
kill-listening flow has taken no action yet. -/
theorem reply_sent_before_killer_acts (c : containerServer) (cmd : Option ExecCmd)
    (msg : Option Msg) (env : Env) (hreq : Launches cmd msg) :
    ∃ sched,
      (∃ e, isTerminalReply e = true ∧
        (Flow.primary, e) ∈ (execute c cmd msg env sched).trace) ∧
      ∀ x ∈ (execute c cmd msg env sched).trace, x.1 = Flow.primary := by
  obtain ⟨r, marked, deferred, _, _, heq⟩ := handleExecve_launches (c := c) env hreq
  let st := r.Start (syncFunc env) env.launch
  let a1 : List Event := (waitAndReply env st).1 ++ [.close .waitDone, (waitAndReply env st).2]
  let a2 : List Event :=
    [.recv .killDone, .sendReply { ExecReply := none } none] ++ deferred ++ [.ret env.sendFinal]
  have hmain : primaryFlow env st deferred = a1 ++ a2 := by
    simp [primaryFlow, a1, a2]
  have h1 : ∀ e ∈ a1, ∀ ch, e = Event.recv ch → ch ∈ ([] : List Chan) := by
    intro e he ch hch
    subst hch
    exfalso
    simp only [a1, List.mem_append, List.mem_cons, List.mem_singleton, List.not_mem_nil,
      or_false] at he
    rcases he with he | he | he
    · obtain ⟨_, _, h⟩ := waitAndReply_wait _ _ _ he
      cases h
    · cases he
    · exact (waitAndReply_reply env st).2.2.2.1 ch he.symm
  have hrun : execute c cmd msg env (List.replicate a1.length .primary) =
      { main := a2, kill := killFlow env.recvKill env.reap,
        closed := a1.foldl closedAfter [],
        trace := (handleExecve c cmd msg env).pre.map (fun e => (Flow.primary, e)) ++
          a1.map (fun e => (Flow.primary, e)) } := by
    unfold execute
    have hinit : (handleExecve c cmd msg env).init =
        { main := a1 ++ a2, kill := killFlow env.recvKill env.reap, closed := [],
          trace := (handleExecve c cmd msg env).pre.map (fun e => (Flow.primary, e)) } := by
      simp only [Flows.init]
      rw [heq]
      simp only [← hmain]
    rw [hinit, run_primary a1 a2 _ _ _ h1]
  refine ⟨List.replicate a1.length .primary, ⟨(waitAndReply env st).2,
    waitAndReply_terminal env st, ?_⟩, ?_⟩
  · rw [hrun]
    simp [a1]
  · intro x hx
    rw [hrun] at hx
    simp only [List.mem_append, List.mem_map] at hx
    rcases hx with ⟨_, _, rfl⟩ | ⟨_, _, rfl⟩ <;> rfl

/-- C10, counterexample: `killDone` is not closed before the final reply of the cycle, the
reply that carries the result: in the interleaving `raceSchedule` that reply is sent while
the kill-listening flow is still reaping, and no close of `killDone` comes before it. -/
theorem result_reply_precedes_killDone :
    ¬ Precedes (fun x => x = (Flow.killer, Event.close .killDone))
      (fun x : Flow × Event => isTerminalReply x.2 = true)
      (execute sampleServer (some sampleCmd) none envExit raceSchedule).trace := by
  intro h
  obtain ⟨y, hy, hyeq⟩ := h
    ((execute sampleServer (some sampleCmd) none envExit raceSchedule).trace.take 8)
    (.primary, .sendReply
      { ExecReply := some
          { Status := .StatusNormal, ExitStatus := 3, Time := 1000500000,
            Memory := 2097152 } } none)
    ((execute sampleServer (some sampleCmd) none envExit raceSchedule).trace.drop 9)
    (by decide) rfl
  have hy2 : y = (Flow.killer, Event.close .killDone) := hyeq
  subst hy2
  revert hy
  decide

/-- C10, as amended: in every interleaving of the two flows of a launched exec cycle, the
kill signal is sent before any reaping wait of the kill-listening flow; when the launch
returned no error the wait on the child is made before `waitDone` is closed, and never
after it; `waitDone` is closed before the first reaping wait and before the reply that
carries the result or the error; `killDone` is closed before the closing reply `Reply{}`
is sent and before the handler returns; the reply that carries the result or the error
does not wait for `killDone`: it can be sent before the kill-listening flow has acted. -/
theorem exec_cycle_ordering (c : containerServer) (cmd : Option ExecCmd) (msg : Option Msg)
    (env : Env) (hreq : Launches cmd msg) (sched : List Flow) :
    Precedes (fun x => x = (Flow.killer, Event.kill (-1) SIGKILL))
      (fun x => x.1 = Flow.killer ∧ isWait x.2) (execute c cmd msg env sched).trace ∧
    ((∀ r : Runner, (r.Start (syncFunc env) env.launch).err = none) →
      Precedes (fun x => x.1 = Flow.primary ∧ isWait x.2)
        (fun x => x.2 = Event.close .waitDone) (execute c cmd msg env sched).trace) ∧
    NeverAfter (fun x => x.2 = Event.close .waitDone)
      (fun x => x.1 = Flow.primary ∧ isWait x.2) (execute c cmd msg env sched).trace ∧
    Precedes (fun x => x = (Flow.primary, Event.close .waitDone))
      (fun x => x.1 = Flow.killer ∧ isWait x.2) (execute c cmd msg env sched).trace ∧
    Precedes (fun x => x = (Flow.primary, Event.close .waitDone))
      (fun x : Flow × Event => isTerminalReply x.2 = true)
      (execute c cmd msg env sched).trace ∧
    Precedes (fun x => x = (Flow.killer, Event.close .killDone))
      (fun x => x = (Flow.primary, Event.sendReply { ExecReply := none } none))
      (execute c cmd msg env sched).trace ∧
    Precedes (fun x => x = (Flow.killer, Event.close .killDone))
      (fun x => x.1 = Flow.primary ∧ isReturn x.2) (execute c cmd msg env sched).trace ∧
    ∃ early,
      (∃ e, isTerminalReply e = true ∧
        (Flow.primary, e) ∈ (execute c cmd msg env early).trace) ∧
      (Flow.killer, Event.close .killDone) ∉ (execute c cmd msg env early).trace := by
  refine ⟨?_, ?_, ?_, ?_, ?_, ?_, ?_, ?_⟩
  · exact (trace_kill_first env hreq sched).mono (fun x h => h) (fun x h => ⟨h.1, Or.inl h.2⟩)
  · exact fun herr => trace_wait_first env hreq sched herr
  · exact trace_no_wait_after env hreq sched
  · exact trace_waitDone_first env hreq sched
  · exact trace_waitDone_before_reply env hreq sched
  · refine (trace_killDone_first env hreq sched).mono (fun x h => h) ?_
    intro x h
    rw [h]
    exact ⟨rfl, Or.inl rfl⟩
  · exact (trace_killDone_first env hreq sched).mono (fun x h => h)
      (fun x h => ⟨h.1, Or.inr h.2⟩)
  · obtain ⟨early, hsent, hall⟩ := reply_sent_before_killer_acts c cmd msg env hreq
    refine ⟨early, hsent, ?_⟩
    intro hmem
    have := hall _ hmem
    cases this

theorem exec_cycle_ordering_witness :
    (execute sampleServer (some sampleCmd) none envExit raceSchedule).trace =
      [(.primary, .start
          { Args := ["/bin/true"], Env := [], ExecFile := 0, RLimits := [], Files := [],
            WorkDir := "/w", NoNewPrivs := true, DropCaps := true,
            Credential := some { Uid := 1000, Gid := 1000, NoSetGroups := true } }),
        (.primary, .sendReply { ExecReply := none }
          (some { Fds := [], Cred := some { Pid := 42, Uid := 0, Gid := 0 } })),
        (.primary, .recvCmd (.ok { Cmd := "ok" })),
        (.killer, .recvCmd (.ok { Cmd := "kill" })),
        (.killer, .kill (-1) SIGKILL),
        (.primary, .wait4 42 0 42 none),
        (.primary, .close .waitDone),
        (.killer, .recv .waitDone),
        (.primary, .sendReply
          { ExecReply := some
              { Status := .StatusNormal, ExitStatus := 3, Time := 1000500000,
                Memory := 2097152 } } none),
        (.killer, .wait4 (-1) WNOHANG 101 none),
        (.killer, .close .killDone),
        (.primary, .recv .killDone),
        (.primary, .sendReply { ExecReply := none } none),
        (.primary, .ret none)] ∧
    Precedes (fun x => x = (Flow.primary, Event.close .waitDone))
      (fun x : Flow × Event => isTerminalReply x.2 = true)
      (execute sampleServer (some sampleCmd) none envExit raceSchedule).trace ∧
    Precedes (fun x => x = (Flow.killer, Event.close .killDone))
      (fun x => x.1 = Flow.primary ∧ isReturn x.2)
      (execute sampleServer (some sampleCmd) none envExit raceSchedule).trace :=
  ⟨by decide,
    (exec_cycle_ordering sampleServer (some sampleCmd) none envExit
      ⟨sampleCmd, rfl, by decide⟩ raceSchedule).2.2.2.2.1,
    (exec_cycle_ordering sampleServer (some sampleCmd) none envExit
      ⟨sampleCmd, rfl, by decide⟩ raceSchedule).2.2.2.2.2.2.1⟩

end Daemon
